import Mathlib

/-!
Shallow embedding of the installation orchestrator and dependency-resolution
engine of the live-plugin-manager `PluginManager` class (PluginManager.ts).

External collaborators (the semver library, the npm/github registry clients,
the lockfile library, the filesystem wrapper and the plugin VM) are modelled
at the level of their observable contracts; the orchestration logic itself is
translated line by line from the source.  Stateful code is modelled by
explicit state passing over `PMState`; every filesystem- or lock-affecting
primitive also appends an `Effect` to an event trace so that ordering claims
("X happens before Y", "no materialization occurs") can be stated.
Recursive routines take an explicit fuel argument; exhausting the fuel
produces the distinguished error `PMError.outOfFuel`.
-/

deriving instance DecidableEq for Except

namespace LPM

/-- A parsed semantic version, as produced by the semver collaborator for a
syntactically valid `major.minor.patch` version string. -/
structure SemVer where
  major : Nat
  minor : Nat
  patch : Nat
deriving DecidableEq, Repr

/-- A version range, as interpreted by `semver.satisfies`.  A bare version
string used as a range (`"1.2.3"`) matches exactly that version; `^v` is the
usual caret range; `any` models the `*` range. -/
inductive VRange where
  | exact (v : SemVer)
  | caret (v : SemVer)
  | any
deriving DecidableEq, Repr

/-- Lexicographic order on semantic versions (models semver comparison). -/
def vle (a b : SemVer) : Bool :=
  if a.major ≠ b.major then a.major ≤ b.major
  else if a.minor ≠ b.minor then a.minor ≤ b.minor
  else a.patch ≤ b.patch

/-- Models `semver.satisfies(version, range)` for the range forms above. -/
def satisfies (v : SemVer) : VRange → Bool
  | .exact w => v == w
  | .caret w =>
      if w.major > 0 then v.major == w.major && vle w v
      else if w.minor > 0 then v.major == 0 && v.minor == w.minor && vle w v
      else v == w
  | .any => true

/-- Splitting a character list at every occurrence of the separator `c`
(the char-list form of `String.splitOn` for a one-character separator). -/
def splitOnChar (c : Char) : List Char → List (List Char)
  | [] => [[]]
  | a :: rest =>
      if a == c then [] :: splitOnChar c rest
      else
        match splitOnChar c rest with
        | [] => [[a]]
        | g :: gs => (a :: g) :: gs

/-- The numeric value of a digit list. -/
def digitsVal (l : List Char) : Nat :=
  l.foldl (fun acc c => acc * 10 + (c.toNat - 48)) 0

/-- One numeric component of a version string: nonempty, all digits, no
leading zero (as in the semver grammar). -/
def parseNumericPart (l : List Char) : Option Nat :=
  if l.isEmpty then none
  else if !(l.all Char.isDigit) then none
  else if l.length > 1 && l.headD 'x' == '0' then none
  else some (digitsVal l)

/-- Models `semver.valid` for plain `major.minor.patch` version strings:
returns the parsed version when the string is syntactically valid. -/
def parseSemVer (s : String) : Option SemVer :=
  match splitOnChar '.' s.toList with
  | [a, b, c] =>
      match parseNumericPart a, parseNumericPart b, parseNumericPart c with
      | some x, some y, some z => some ⟨x, y, z⟩
      | _, _, _ => none
  | _ => none

/-- `charsLead n h` holds when the char list `n` is an initial segment of `h`. -/
def charsLead : List Char → List Char → Bool
  | [], _ => true
  | _ :: _, [] => false
  | a :: as, b :: bs => a == b && charsLead as bs

/-- `charsOccur n h`: the char list `n` occurs contiguously somewhere in `h`. -/
def charsOccur (n : List Char) : List Char → Bool
  | [] => charsLead n []
  | b :: bs => charsLead n (b :: bs) || charsOccur n bs

/-- Models `new RegExp(pat).test(name)` for pattern strings that contain no
regex metacharacters: such a pattern matches iff it occurs anywhere in the
tested string (an unanchored substring search, not an exact-name match). -/
def jsRegexTest (pat name : String) : Bool :=
  charsOccur pat.toList name.toList

/-- One entry of `options.ignoredDependencies : Array<string | RegExp>`.
A `RegExp` entry is modelled by its test function. -/
inductive IgnorePattern where
  | literal (s : String)
  | regex (test : String → Bool)

/-- How a configured ignore pattern is applied to a dependency name in
`shouldIgnore`: a `RegExp` entry via `p.test(name)`, a string entry via
`new RegExp(p).test(name)`. -/
def patternTest : IgnorePattern → String → Bool
  | .literal s, name => jsRegexTest s name
  | .regex t, name => t name

/-- The raw contents of an on-disk `package.json`: each required field may be
missing (`name` may additionally be present but empty, which the source
treats as falsy/missing as well). -/
structure RawManifest where
  name : Option String
  version : Option SemVer
  main : Option String
  dependencies : Option (List (String × VRange))
deriving DecidableEq, Repr

/-- The validated result of `readPackageJsonFromPath` (interface
`PackageJsonInfo`): `name` and `version` are known to be present. -/
structure PackageJsonInfo where
  name : String
  version : SemVer
  main : Option String
  dependencies : Option (List (String × VRange))
deriving DecidableEq, Repr

/-- `PackageInfo` as returned by a registry client's resolve step. -/
structure PackageInfo where
  name : String
  version : SemVer
deriving DecidableEq, Repr

/-- The installed-plugin descriptor (interface `IPluginInfo`) as built by
`createPluginInfo`: by construction its dependency map is a total (possibly
empty) association list. -/
structure PluginInfo where
  name : String
  version : SemVer
  location : String
  mainFile : String
  dependencies : List (String × VRange)
deriving DecidableEq, Repr

/-- One plugin subdirectory of the store: its `package.json` (if present and
parseable) and its other files as an association list from file name to
content. -/
structure PluginDirectory where
  packageJson : Option RawManifest
  files : List (String × String)
deriving DecidableEq, Repr

/-- Observable events, in order of occurrence.  Filesystem reads and
in-memory registry reads emit no event; everything that touches the store,
the lock file, the network or the VM does. -/
inductive Effect where
  | ensureDir (path : String)
  | lockAcquire
  | lockRelease
  | resolveNpm (name : String)
  | resolveGithub (repo : String)
  | npmDownload (name : String) (version : SemVer)
  | ghDownload (name : String) (version : SemVer)
  | fsRemove (path : String)
  | fsWriteFile (path : String) (content : String)
  | fsWriteManifest (path : String)
  | unload (name : String)
  | registryPush (name : String)
deriving DecidableEq, Repr

/-- The error taxonomy of the orchestrator (plus fuel exhaustion for the
unbounded recursions of the source). -/
inductive PMError where
  | invalidName (name : String)
  | invalidVersion
  | invalidPackage (location : String)
  | notResolved
  | lockAcquireFailure
  | lockReleaseFailure
  | outOfFuel
deriving DecidableEq, Repr

/-- The mutable state of one `PluginManager`: the in-memory registry
(`installedPlugins`, insertion-ordered), the store directory (plugin
subdirectories keyed by absolute location path), and the event trace. -/
structure PMState where
  installedPlugins : List PluginInfo
  fsDirs : List (String × PluginDirectory)
  trace : List Effect
deriving DecidableEq, Repr

/-- Association-list lookup (first match). -/
def alFind {β : Type} : List (String × β) → String → Option β
  | [], _ => none
  | (k, v) :: rest, key => if k = key then some v else alFind rest key

/-- Association-list update: replaces the first binding of `key`, or appends
a new binding. -/
def alSet {β : Type} : List (String × β) → String → β → List (String × β)
  | [], key, v => [(key, v)]
  | (k, w) :: rest, key, v =>
      if k = key then (key, v) :: rest else (k, w) :: alSet rest key v

/-- Association-list removal of every binding of `key`. -/
def alErase {β : Type} : List (String × β) → String → List (String × β)
  | [], _ => []
  | (k, w) :: rest, key =>
      if k = key then alErase rest key else (k, w) :: alErase rest key

/-- The configuration and external collaborators of one `PluginManager`:
the recognized `PluginManagerOptions` fields that the installation logic
reads, together with the resolve/materialize contracts of the npm and
github registry clients and the possible outcomes of the lockfile
collaborator.  `npmPayload name version` is the directory content that
`npmRegistry.download` extracts for that package (and similarly for
github); the download itself overlays it onto whatever is already at the
target location, as tarball extraction does. -/
structure Env where
  pluginsPath : String
  ignoredDependencies : List IgnorePattern
  staticDependencies : List String
  hostRequire : Option (String → Option SemVer)
  npmResolve : String → Option VRange → Option PackageInfo
  npmPayload : String → SemVer → PluginDirectory
  ghResolve : String → Option PackageInfo
  ghPayload : String → SemVer → PluginDirectory
  lockAcquireFails : Bool
  lockReleaseFails : Bool

/-- The `version` argument of `install`: either a string matching the
github-repository pattern (dispatched to the github source by
`githubRegistry.isGithubRepo`) or an npm version range. -/
inductive VersionSpec where
  | github (repo : String)
  | range (r : VRange)

/-- Models `githubRegistry.isGithubRepo(version)`. -/
def isGithubSpec : VersionSpec → Bool
  | .github _ => true
  | .range _ => false

/-- The npm range carried by a non-github version spec. -/
def rangeOfSpec : Option VersionSpec → Option VRange
  | none => none
  | some (.github _) => none
  | some (.range r) => some r

/-- Stateful computations of the orchestrator: explicit state passing with an
`Except` result.  On error the state (and in particular the trace of effects
already performed) is retained. -/
def M (α : Type) : Type := PMState → Except PMError α × PMState

/-- Appends one observable event to the trace. -/
def emitE (s : PMState) (e : Effect) : PMState :=
  { s with trace := s.trace ++ [e] }

/-- Models `path.join(a, b)` for the forward-slash paths the manager builds. -/
def pathJoin (a b : String) : String := a ++ "/" ++ b

/-- The `DefaultMainFile` constant of the source. -/
def DefaultMainFile : String := "index.js"

/-- Whether a character list begins with a dot (`name.startsWith(".")`). -/
def leadsWithDot : List Char → Bool
  | '.' :: _ => true
  | _ => false

/-- `isValidPluginName`: rejects the empty name, names starting with `.` and
names containing a backslash; a forward slash is permitted (scoped names).
(The non-string case of the source is unrepresentable here: names are typed.) -/
def isValidPluginName (name : String) : Bool :=
  if name.length = 0 then false
  else if leadsWithDot name.toList || name.toList.contains '\\' then false
  else true

/-- `getPluginLocation`: the store subdirectory for a plugin name. -/
def getPluginLocation (env : Env) (name : String) : String :=
  pathJoin env.pluginsPath name

/-- Models `path.extname(p) !== ""`: whether the basename of `p` has a file
extension (a dot after its first character). -/
def hasExtension (p : String) : Bool :=
  let base := (splitOnChar '/' p.toList).getLastD []
  match splitOnChar '.' base with
  | [] => false
  | [_] => false
  | parts => !(leadsWithDot base && parts.length = 2)

/-- `shouldIgnore`: a dependency name is ignored when some configured ignore
pattern matches it (a `RegExp` via its own test, a string via
`new RegExp(p).test(name)`), or when it is one of the static-dependency keys. -/
def shouldIgnore (env : Env) (name : String) : Bool :=
  env.ignoredDependencies.any (fun p => patternTest p name)
  || env.staticDependencies.any (fun k => k = name)

/-- `isModuleAvailableFromHost`: with no host require configured the probe
fails; otherwise it resolves the module's own `package.json` (an unresolved
probe, modelled by `none`, is caught and yields `false`) and checks that its
version satisfies the requested range. -/
def isModuleAvailableFromHost (env : Env) (name : String) (version : VRange) : Bool :=
  match env.hostRequire with
  | none => false
  | some hr =>
      match hr name with
      | none => false
      | some v => satisfies v version

/-- `getFullInfo` (also `getInfo`): first registry entry with the given name. -/
def getFullInfo (s : PMState) (name : String) : Option PluginInfo :=
  s.installedPlugins.find? (fun p => p.name == name)

/-- `alreadyInstalled`: the installed descriptor for `name`, provided either
no range was requested or the installed version satisfies the range. -/
def alreadyInstalled (s : PMState) (name : String) (version : Option VRange) :
    Option PluginInfo :=
  match getFullInfo s name with
  | some info =>
      match version with
      | none => some info
      | some r => if satisfies info.version r then some info else none
  | none => none

/-- `readPackageJsonFromPath` as a pure function of the state: fails when the
directory or its `package.json` is missing, or when the manifest lacks a
(nonempty) `name` or a `version`. -/
def readPackageJsonFromPath (s : PMState) (location : String) :
    Except PMError PackageJsonInfo :=
  match alFind s.fsDirs location with
  | none => .error (.invalidPackage location)
  | some dir =>
      match dir.packageJson with
      | none => .error (.invalidPackage location)
      | some raw =>
          match raw.name, raw.version with
          | some n, some v =>
              if n = "" then .error (.invalidPackage location)
              else .ok ⟨n, v, raw.main, raw.dependencies⟩
          | _, _ => .error (.invalidPackage location)

/-- `isAlreadyDownloaded` as a pure function of the state: the store already
holds a directory for `name` whose manifest reads back with exactly this
name and version (a failing read is caught and yields `false`). -/
def isAlreadyDownloadedPure (env : Env) (s : PMState) (name : String)
    (version : SemVer) : Bool :=
  let location := getPluginLocation env name
  match alFind s.fsDirs location with
  | none => false
  | some _ =>
      match readPackageJsonFromPath s location with
      | .error _ => false
      | .ok pj => pj.name == name && pj.version == version

/-- `list()`: a fresh array holding the installed descriptors in insertion
order (`installedPlugins.map(p => p)`); the registry itself is not touched,
and the caller receives a copy, not the registry's own array. -/
def listPlugins (s : PMState) : List PluginInfo :=
  s.installedPlugins.map (fun p => p)

/-- `list()` viewed as an operation on the manager state (a read returning
the fresh copy and leaving the state untouched). -/
def listM : M (List PluginInfo) := fun s => (.ok (listPlugins s), s)

/-- `syncLock`: invokes `lockFile.lock` on the lock file under the store
root.  A successful acquisition touches the lock file; a failed one (wait
timeout) rejects. -/
def syncLock (env : Env) : M Unit := fun s =>
  if env.lockAcquireFails then (.error .lockAcquireFailure, s)
  else (.ok (), emitE s .lockAcquire)

/-- `syncUnlock`: invokes `lockFile.unlock` (the release attempt is the
observable event); when the lockfile collaborator reports an error the
promise rejects with `LockReleaseFailure`. -/
def syncUnlock (env : Env) : M Unit := fun s =>
  let s1 := emitE s .lockRelease
  if env.lockReleaseFails then (.error .lockReleaseFailure, s1)
  else (.ok (), s1)

/-- JavaScript `try { body } finally { fin }` with an awaited `fin`: the
finalizer runs whatever the body's outcome; if the finalizer itself throws,
its error is what the caller observes, otherwise the body's outcome is. -/
def tryFinallyM {α : Type} (body : M α) (fin : M Unit) : M α := fun s =>
  let (rb, s1) := body s
  let (rf, s2) := fin s1
  match rf with
  | .error e => (.error e, s2)
  | .ok _ => (rb, s2)

/-- `fs.ensureDir(pluginsPath)`: creating the store root touches nothing in
the per-plugin directory map. -/
def ensureRootDir (env : Env) : M Unit := fun s =>
  (.ok (), emitE s (.ensureDir env.pluginsPath))

/-- `fs.ensureDir(location)` for a plugin directory: creates an empty
directory entry when none exists. -/
def ensurePluginDir (location : String) : M Unit := fun s =>
  let s1 := emitE s (.ensureDir location)
  match alFind s1.fsDirs location with
  | some _ => (.ok (), s1)
  | none => (.ok (), { s1 with fsDirs := alSet s1.fsDirs location ⟨none, []⟩ })

/-- `fs.remove(location)`: deletes the directory at `location`. -/
def fsRemoveM (location : String) : M Unit := fun s =>
  (.ok (), { emitE s (.fsRemove location) with
              fsDirs := alErase s.fsDirs location })

/-- `fs.writeFile(path.join(location, fileName), content)` for a plain file. -/
def writeFileM (location fileName content : String) : M Unit := fun s =>
  let dir := (alFind s.fsDirs location).getD ⟨none, []⟩
  let dir1 : PluginDirectory := { dir with files := alSet dir.files fileName content }
  (.ok (), { emitE s (.fsWriteFile (pathJoin location fileName) content) with
              fsDirs := alSet s.fsDirs location dir1 })

/-- `fs.writeFile(path.join(location, "package.json"), JSON.stringify(pkg))`. -/
def writeManifestM (location : String) (raw : RawManifest) : M Unit := fun s =>
  let dir := (alFind s.fsDirs location).getD ⟨none, []⟩
  let dir1 : PluginDirectory := { dir with packageJson := some raw }
  (.ok (), { emitE s (.fsWriteManifest (pathJoin location "package.json")) with
              fsDirs := alSet s.fsDirs location dir1 })

/-- Tarball extraction overlays the payload onto an existing directory: the
payload's files (and its manifest, when it ships one) win, other
pre-existing files survive. -/
def overlayDir (old payload : PluginDirectory) : PluginDirectory :=
  { packageJson :=
      match payload.packageJson with
      | some p => some p
      | none => old.packageJson
    files := payload.files ++ old.files.filter (fun kv => (alFind payload.files kv.1).isNone) }

/-- `npmRegistry.get(name, versionOrTag)`: queries the remote index. -/
def npmGet (env : Env) (name : String) (version : Option VRange) : M PackageInfo :=
  fun s =>
    let s1 := emitE s (.resolveNpm name)
    match env.npmResolve name version with
    | some info => (.ok info, s1)
    | none => (.error .notResolved, s1)

/-- `npmRegistry.download(pluginsPath, registryInfo)`: downloads the archive
and extracts it into the store subdirectory for the package name. -/
def npmDownloadM (env : Env) (info : PackageInfo) : M Unit := fun s =>
  let location := getPluginLocation env info.name
  let payload := env.npmPayload info.name info.version
  let newDir :=
    match alFind s.fsDirs location with
    | some old => overlayDir old payload
    | none => payload
  (.ok (), { emitE s (.npmDownload info.name info.version) with
              fsDirs := alSet s.fsDirs location newDir })

/-- `githubRegistry.get(repository)`. -/
def ghGet (env : Env) (repo : String) : M PackageInfo := fun s =>
  let s1 := emitE s (.resolveGithub repo)
  match env.ghResolve repo with
  | some info => (.ok info, s1)
  | none => (.error .notResolved, s1)

/-- `githubRegistry.download(pluginsPath, registryInfo)`. -/
def ghDownloadM (env : Env) (info : PackageInfo) : M Unit := fun s =>
  let location := getPluginLocation env info.name
  let payload := env.ghPayload info.name info.version
  let newDir :=
    match alFind s.fsDirs location with
    | some old => overlayDir old payload
    | none => payload
  (.ok (), { emitE s (.ghDownload info.name info.version) with
              fsDirs := alSet s.fsDirs location newDir })

/-- `removeDownloaded`: the source removes the plugin location only when
`fs.directoryExists(location)` is FALSE (the condition is negated), so an
existing directory is left in place. -/
def removeDownloaded (env : Env) (name : String) : M Unit := fun s =>
  let location := getPluginLocation env name
  match alFind s.fsDirs location with
  | none => fsRemoveM location s
  | some _ => (.ok (), s)

/-- `isAlreadyDownloaded` in the state monad (a pure read). -/
def isAlreadyDownloaded (env : Env) (name : String) (version : SemVer) : M Bool :=
  fun s => (.ok (isAlreadyDownloadedPure env s name version), s)

/-- `createPluginInfo`: reads the manifest back from the store subdirectory
for `name` and builds the descriptor: entry path is the manifest's `main`
or the default entry filename, suffixed with the default `.js` extension
when it has none; the dependency map is the manifest's `dependencies` or
the empty map. -/
def createPluginInfo (env : Env) (name : String) : M PluginInfo := fun s =>
  let location := getPluginLocation env name
  match readPackageJsonFromPath s location with
  | .error e => (.error e, s)
  | .ok pj =>
      let mainFile := pathJoin location (pj.main.getD DefaultMainFile)
      let mainFile := if hasExtension mainFile then mainFile else mainFile ++ ".js"
      (.ok ⟨pj.name, pj.version, location, mainFile, pj.dependencies.getD []⟩, s)

/-- `unload`: hands the descriptor to the VM collaborator for unloading. -/
def unloadM (plugin : PluginInfo) : M Unit := fun s =>
  (.ok (), emitE s (.unload plugin.name))

mutual

/-- `unloadWithDependents`: unloads the plugin, then recursively unloads
every installed descriptor whose dependency map contains the plugin's name.
The source has no visited set, so the recursion is fuelled. -/
def unloadWithDependents (env : Env) : Nat → PluginInfo → M Unit
  | 0, _ => fun s => (.error .outOfFuel, s)
  | n + 1, plugin => fun s =>
      let (_, s1) := unloadM plugin s
      unloadScan env n s1.installedPlugins plugin s1

/-- The `for (const installed of this.installedPlugins)` scan of
`unloadWithDependents`. -/
def unloadScan (env : Env) : Nat → List PluginInfo → PluginInfo → M Unit
  | 0, _, _ => fun s => (.error .outOfFuel, s)
  | _ + 1, [], _ => fun s => (.ok (), s)
  | n + 1, installed :: rest, plugin => fun s =>
      if (alFind installed.dependencies plugin.name).isSome then
        match unloadWithDependents env n installed s with
        | (.ok _, s1) => unloadScan env n rest plugin s1
        | (.error e, s1) => (.error e, s1)
      else unloadScan env n rest plugin s

end

/-- `deleteAndUnloadPlugin`: removes the descriptor from the registry (the
`indexOf`/`splice` pair removes exactly the found entry), runs the unload
cascade, then deletes the descriptor's store directory. -/
def deleteAndUnloadPlugin (env : Env) (fuel : Nat) (plugin : PluginInfo) : M Unit :=
  fun s =>
    let s1 := { s with installedPlugins := s.installedPlugins.erase plugin }
    match unloadWithDependents env fuel plugin s1 with
    | (.ok _, s2) => fsRemoveM plugin.location s2
    | (.error e, s2) => (.error e, s2)

/-- `uninstallLockFree`: validates the name; an uninstalled name is a no-op
success; otherwise delete-and-unload the found descriptor. -/
def uninstallLockFree (env : Env) (fuel : Nat) (name : String) : M Unit := fun s =>
  if !isValidPluginName name then (.error (.invalidName name), s)
  else
    match getFullInfo s name with
    | none => (.ok (), s)
    | some info => deleteAndUnloadPlugin env fuel info s

mutual

/-- `installLockFree`: validates the name, then dispatches a github-looking
version spec to the github source and anything else to the npm source. -/
def installLockFree (env : Env) :
    Nat → String → Option VersionSpec → M PluginInfo
  | 0, _, _ => fun s => (.error .outOfFuel, s)
  | n + 1, name, spec => fun s =>
      if !isValidPluginName name then (.error (.invalidName name), s)
      else
        match spec with
        | some (.github repo) => installFromGithubLockFree env n repo s
        | _ => installFromNpmLockFree env n name (rangeOfSpec spec) s

/-- `installFromNpmLockFree`: the install decision tree against the npm
source (resolve, idempotent short-circuit, incompatible-version uninstall,
already-downloaded check, materialize, read manifest back, add). -/
def installFromNpmLockFree (env : Env) :
    Nat → String → Option VRange → M PluginInfo
  | 0, _, _ => fun s => (.error .outOfFuel, s)
  | n + 1, name, version => fun s =>
      if !isValidPluginName name then (.error (.invalidName name), s)
      else
        match npmGet env name version s with
        | (.error e, s1) => (.error e, s1)
        | (.ok registryInfo, s1) =>
            match alreadyInstalled s1 registryInfo.name
                (some (.exact registryInfo.version)) with
            | some installedInfo => (.ok installedInfo, s1)
            | none =>
                let step2 : Except PMError Unit × PMState :=
                  if (alreadyInstalled s1 registryInfo.name none).isSome then
                    uninstallLockFree env n registryInfo.name s1
                  else (.ok (), s1)
                match step2 with
                | (.error e, s2) => (.error e, s2)
                | (.ok _, s2) =>
                    let step3 : Except PMError Unit × PMState :=
                      if !isAlreadyDownloadedPure env s2 registryInfo.name
                          registryInfo.version then
                        match removeDownloaded env registryInfo.name s2 with
                        | (.error e, s3) => (.error e, s3)
                        | (.ok _, s3) => npmDownloadM env registryInfo s3
                      else (.ok (), s2)
                    match step3 with
                    | (.error e, s4) => (.error e, s4)
                    | (.ok _, s4) =>
                        match createPluginInfo env registryInfo.name s4 with
                        | (.error e, s5) => (.error e, s5)
                        | (.ok pluginInfo, s5) => addPlugin env n pluginInfo s5

/-- `installFromGithubLockFree`: same decision tree against the github
source (the name is validated after the resolve step). -/
def installFromGithubLockFree (env : Env) : Nat → String → M PluginInfo
  | 0, _ => fun s => (.error .outOfFuel, s)
  | n + 1, repository => fun s =>
      match ghGet env repository s with
      | (.error e, s1) => (.error e, s1)
      | (.ok registryInfo, s1) =>
          if !isValidPluginName registryInfo.name then
            (.error (.invalidName registryInfo.name), s1)
          else
            match alreadyInstalled s1 registryInfo.name
                (some (.exact registryInfo.version)) with
            | some installedInfo => (.ok installedInfo, s1)
            | none =>
                let step2 : Except PMError Unit × PMState :=
                  if (alreadyInstalled s1 registryInfo.name none).isSome then
                    uninstallLockFree env n registryInfo.name s1
                  else (.ok (), s1)
                match step2 with
                | (.error e, s2) => (.error e, s2)
                | (.ok _, s2) =>
                    let step3 : Except PMError Unit × PMState :=
                      if !isAlreadyDownloadedPure env s2 registryInfo.name
                          registryInfo.version then
                        match removeDownloaded env registryInfo.name s2 with
                        | (.error e, s3) => (.error e, s3)
                        | (.ok _, s3) => ghDownloadM env registryInfo s3
                      else (.ok (), s2)
                    match step3 with
                    | (.error e, s4) => (.error e, s4)
                    | (.ok _, s4) =>
                        match createPluginInfo env registryInfo.name s4 with
                        | (.error e, s5) => (.error e, s5)
                        | (.ok pluginInfo, s5) => addPlugin env n pluginInfo s5

/-- `addPlugin`: installs the plugin's dependencies FIRST, and only then
appends the descriptor to the registry. -/
def addPlugin (env : Env) : Nat → PluginInfo → M PluginInfo
  | 0, _ => fun s => (.error .outOfFuel, s)
  | n + 1, plugin => fun s =>
      match installDependencies env n plugin s with
      | (.error e, s1) => (.error e, s1)
      | (.ok _, s1) =>
          let s2 := emitE s1 (.registryPush plugin.name)
          (.ok plugin, { s2 with installedPlugins := s2.installedPlugins ++ [plugin] })

/-- `installDependencies`: iterates the descriptor's dependency map. -/
def installDependencies (env : Env) :
    Nat → PluginInfo → M (List (String × VRange))
  | 0, _ => fun s => (.error .outOfFuel, s)
  | n + 1, plugin => installDepsList env n plugin.dependencies

/-- The `for (const key in plugin.dependencies)` loop: an ignored key is
skipped entirely (`continue`); otherwise the key is satisfied from the
host, or found already installed at a compatible version, or recursively
installed, and is recorded in the returned dependency dictionary. -/
def installDepsList (env : Env) :
    Nat → List (String × VRange) → M (List (String × VRange))
  | 0, _ => fun s => (.error .outOfFuel, s)
  | _ + 1, [] => fun s => (.ok [], s)
  | n + 1, (key, version) :: rest => fun s =>
      if shouldIgnore env key then installDepsList env n rest s
      else
        let step : Except PMError Unit × PMState :=
          if isModuleAvailableFromHost env key version then (.ok (), s)
          else if (alreadyInstalled s key (some version)).isSome then (.ok (), s)
          else
            match installLockFree env n key (some (.range version)) s with
            | (.error e, s1) => (.error e, s1)
            | (.ok _, s1) => (.ok (), s1)
        match step with
        | (.error e, s1) => (.error e, s1)
        | (.ok _, s1) =>
            match installDepsList env n rest s1 with
            | (.error e, s2) => (.error e, s2)
            | (.ok deps, s2) => (.ok ((key, version) :: deps), s2)

end

/-- `installFromCodeLockFree(name, code, version = "0.0.0")`: validates the
name, then the version string (`semver.valid`); skips the already-installed
short-circuit for the sentinel version `"0.0.0"`; uninstalls an installed
incompatible version; unless the store already holds this exact
name+version, (attempts to) clear the location and writes the entry file
verbatim plus a synthesized manifest containing only name and version. -/
def installFromCodeLockFree (env : Env) (fuel : Nat)
    (name code : String) (version : Option String) : M PluginInfo := fun s =>
  let versionStr := version.getD "0.0.0"
  if !isValidPluginName name then (.error (.invalidName name), s)
  else
    match parseSemVer versionStr with
    | none => (.error .invalidVersion, s)
    | some v =>
        match
          (if versionStr ≠ "0.0.0" then alreadyInstalled s name (some (.exact v))
           else none) with
        | some installedInfo => (.ok installedInfo, s)
        | none =>
            let step2 : Except PMError Unit × PMState :=
              if (alreadyInstalled s name none).isSome then
                uninstallLockFree env fuel name s
              else (.ok (), s)
            match step2 with
            | (.error e, s2) => (.error e, s2)
            | (.ok _, s2) =>
                let step3 : Except PMError Unit × PMState :=
                  if !isAlreadyDownloadedPure env s2 name v then
                    match removeDownloaded env name s2 with
                    | (.error e, s3) => (.error e, s3)
                    | (.ok _, s3) =>
                        let location := getPluginLocation env name
                        match ensurePluginDir location s3 with
                        | (.error e, s3a) => (.error e, s3a)
                        | (.ok _, s3a) =>
                            match writeFileM location DefaultMainFile code s3a with
                            | (.error e, s3b) => (.error e, s3b)
                            | (.ok _, s3b) =>
                                writeManifestM location ⟨some name, some v, none, none⟩ s3b
                  else (.ok (), s2)
                match step3 with
                | (.error e, s4) => (.error e, s4)
                | (.ok _, s4) =>
                    match createPluginInfo env name s4 with
                    | (.error e, s5) => (.error e, s5)
                    | (.ok pluginInfo, s5) => addPlugin env fuel pluginInfo s5

/-- The shared shape of every public mutating operation: ensure the store
root exists, acquire the cross-process lock, run the lock-free variant, and
release the lock in a `finally` block. -/
def lockGuarded {α : Type} (env : Env) (body : M α) : M α := fun s =>
  let (_, s0) := ensureRootDir env s
  match syncLock env s0 with
  | (.error e, s1) => (.error e, s1)
  | (.ok _, s1) => tryFinallyM body (syncUnlock env) s1

/-- Public `install(name, version?)`. -/
def install (env : Env) (fuel : Nat) (name : String)
    (version : Option VersionSpec) : M PluginInfo :=
  lockGuarded env (installLockFree env fuel name version)

/-- Public `installFromNpm(name, version = "latest")`. -/
def installFromNpm (env : Env) (fuel : Nat) (name : String)
    (version : Option VRange) : M PluginInfo :=
  lockGuarded env (installFromNpmLockFree env fuel name version)

/-- Public `installFromGithub(repository)`. -/
def installFromGithub (env : Env) (fuel : Nat) (repository : String) : M PluginInfo :=
  lockGuarded env (installFromGithubLockFree env fuel repository)

/-- Public `installFromCode(name, code, version?)`. -/
def installFromCode (env : Env) (fuel : Nat) (name code : String)
    (version : Option String) : M PluginInfo :=
  lockGuarded env (installFromCodeLockFree env fuel name code version)

/-- Public `uninstall(name)`. -/
def uninstall (env : Env) (fuel : Nat) (name : String) : M Unit :=
  lockGuarded env (uninstallLockFree env fuel name)

/-! ### Concrete fixtures used by counterexamples and witnesses -/

/-- A minimal well-behaved configuration: empty ignore list, no static
dependencies, no host require, an empty npm index, and a lockfile
collaborator that always succeeds. -/
def env0 : Env where
  pluginsPath := "plugins"
  ignoredDependencies := []
  staticDependencies := []
  hostRequire := none
  npmResolve := fun _ _ => none
  npmPayload := fun n v => ⟨some ⟨some n, some v, none, none⟩, []⟩
  ghResolve := fun _ => none
  ghPayload := fun n v => ⟨some ⟨some n, some v, none, none⟩, []⟩
  lockAcquireFails := false
  lockReleaseFails := false

/-- The empty manager state: nothing installed, empty store, empty trace. -/
def s0 : PMState := ⟨[], [], []⟩

/-- Version 1.0.0, used throughout the concrete scenarios. -/
def v1 : SemVer := ⟨1, 0, 0⟩

/-- Store directory of a package `A` at 1.0.0 depending on `B@1.0.0`. -/
def dirA : PluginDirectory :=
  ⟨some ⟨some "A", some v1, none, some [("B", .exact v1)]⟩, []⟩

/-- Store directory of a package `B` at 1.0.0 depending on `A@1.0.0`. -/
def dirB : PluginDirectory :=
  ⟨some ⟨some "B", some v1, none, some [("A", .exact v1)]⟩, []⟩

/-- An npm index holding the mutually compatible dependency cycle
`A@1.0.0 ⇄ B@1.0.0`. -/
def envCycle : Env := { env0 with
  npmResolve := fun n _ =>
    if n = "A" then some ⟨"A", v1⟩ else if n = "B" then some ⟨"B", v1⟩ else none }

/-- Registry empty, store pre-populated with the cycle members (so that no
network materialization is needed while the recursion runs). -/
def sCycle : PMState := ⟨[], [("plugins/A", dirA), ("plugins/B", dirB)], []⟩

/-- A configuration whose lockfile collaborator fails on release. -/
def envRelFail : Env := { env0 with lockReleaseFails := true }

/-- A stale store directory for `x`: manifest at the outdated 0.9.0, plus a
leftover file. -/
def dirStale : PluginDirectory :=
  ⟨some ⟨some "x", some ⟨0, 9, 0⟩, none, none⟩, [("old.js", "OLD")]⟩

/-- An npm index resolving `x` to 1.0.0. -/
def envStale : Env := { env0 with
  npmResolve := fun n _ => if n = "x" then some ⟨"x", v1⟩ else none }

/-- Registry empty, store holding the stale directory for `x`. -/
def sStale : PMState := ⟨[], [("plugins/x", dirStale)], []⟩

/-- A store directory created by an earlier versionless `installFromCode`:
manifest at the sentinel 0.0.0 and the old entry file. -/
def dirCode : PluginDirectory :=
  ⟨some ⟨some "x", some ⟨0, 0, 0⟩, none, none⟩, [("index.js", "OLD")]⟩

/-- Registry empty (fresh manager instance), store holding `dirCode`. -/
def sCode : PMState := ⟨[], [("plugins/x", dirCode)], []⟩

/-- An npm index resolving `foo` (at any requested range) to 1.2.3. -/
def envIdem : Env := { env0 with
  npmResolve := fun n _ =>
    if n = "foo" then some ⟨"foo", ⟨1, 2, 3⟩⟩ else none }

/-- The result of the first `install("foo", "^1.0.0")` against `envIdem`. -/
def idemRun1 : Except PMError PluginInfo × PMState :=
  install envIdem 9 "foo" (some (.range (.caret v1))) s0

/-- The descriptor that install builds for `foo@1.2.3`. -/
def fooInfo : PluginInfo :=
  ⟨"foo", ⟨1, 2, 3⟩, "plugins/foo", "plugins/foo/index.js", []⟩

/-- A configuration with the literal ignore pattern `"lodash"`. -/
def envIgnore : Env := { env0 with ignoredDependencies := [.literal "lodash"] }

/-- A plugin whose sole dependency is `lodash-es`. -/
def plugLodash : PluginInfo :=
  ⟨"p", v1, "plugins/p", "plugins/p/index.js", [("lodash-es", .any)]⟩

/-- Installed plugin `a` (no dependencies). -/
def pA : PluginInfo := ⟨"a", v1, "plugins/a", "plugins/a/index.js", []⟩

/-- Installed plugin `t` (the uninstall target). -/
def pT : PluginInfo := ⟨"t", v1, "plugins/t", "plugins/t/index.js", []⟩

/-- Store directory backing `pA`. -/
def dA : PluginDirectory := ⟨some ⟨some "a", some v1, none, none⟩, []⟩

/-- Store directory backing `pT`. -/
def dT : PluginDirectory := ⟨some ⟨some "t", some v1, none, none⟩, []⟩

/-- Two installed plugins with their store directories. -/
def sUninst : PMState :=
  ⟨[pA, pT], [("plugins/a", dA), ("plugins/t", dT)], []⟩

/-! ### C2 — validation errors are raised inside the critical section -/

/-- C2 counterexample: `install(".secret")` does NOT fail before filesystem
I/O and lock acquisition — the run ensures the store root, acquires the
lock, and releases it again, and only the error itself reports the invalid
name: the final trace shows the store-root creation and the lock-file touch
preceding the failure. -/
theorem C2_counterexample :
    install env0 5 ".secret" none s0 =
      (.error (.invalidName ".secret"),
       ⟨[], [], [.ensureDir "plugins", .lockAcquire, .lockRelease]⟩) := by decide

/-- C2 (amended): for every public mutating operation and invalid argument
(empty name, name starting with `.`, name containing a backslash, or a
syntactically invalid version for installFromCode), the operation fails
with the validation error only after ensuring the store root and acquiring
the cross-process lock, and the lock is released again: the state delta is
exactly the ensure/acquire/release trace. -/
theorem C2_validation_inside_lock (env : Env) (fuel : Nat) (name : String)
    (spec : Option VersionSpec) (s : PMState)
    (hA : env.lockAcquireFails = false) (hR : env.lockReleaseFails = false) :
    (isValidPluginName name = false →
      install env (fuel + 1) name spec s =
        (.error (.invalidName name),
         { s with trace := s.trace ++
             [.ensureDir env.pluginsPath, .lockAcquire, .lockRelease] })
      ∧ uninstall env fuel name s =
        (.error (.invalidName name),
         { s with trace := s.trace ++
             [.ensureDir env.pluginsPath, .lockAcquire, .lockRelease] }))
    ∧ (∀ code vs, isValidPluginName name = true → parseSemVer vs = none →
        installFromCode env fuel name code (some vs) s =
          (.error .invalidVersion,
           { s with trace := s.trace ++
               [.ensureDir env.pluginsPath, .lockAcquire, .lockRelease] })) := by
  constructor
  · intro h
    constructor
    · simp [install, lockGuarded, ensureRootDir, syncLock, hA, tryFinallyM,
            installLockFree, h, syncUnlock, hR, emitE]
    · simp [uninstall, lockGuarded, ensureRootDir, syncLock, hA, tryFinallyM,
            uninstallLockFree, h, syncUnlock, hR, emitE]
  · intro code vs hv hp
    simp [installFromCode, lockGuarded, ensureRootDir, syncLock, hA, tryFinallyM,
          installFromCodeLockFree, hv, hp, syncUnlock, hR, emitE]

/-- Witness for C2 (amended) at `install(".secret")` and an invalid
`installFromCode` version. -/
theorem C2_validation_inside_lock_witness :
    install env0 (2 + 1) ".secret" none s0 =
      (.error (.invalidName ".secret"),
       { s0 with trace := s0.trace ++
           [.ensureDir env0.pluginsPath, .lockAcquire, .lockRelease] })
    ∧ installFromCode env0 2 "x" "code" (some "not.a.version") s0 =
      (.error .invalidVersion,
       { s0 with trace := s0.trace ++
           [.ensureDir env0.pluginsPath, .lockAcquire, .lockRelease] }) :=
  ⟨((C2_validation_inside_lock env0 2 ".secret" none s0 (by decide) (by decide)).1
      (by decide)).1,
   (C2_validation_inside_lock env0 2 "x" none s0 (by decide) (by decide)).2
      "code" "not.a.version" (by decide) (by decide)⟩

/-! ### C3 — lock release semantics -/

/-- C3 counterexample: with a failing lock release, a guarded operation
whose lock-free body succeeds (here `installFromCode`, whose body returns
the installed descriptor) reports `LockReleaseFailure` to the caller: the
release failure REPLACES the primary result instead of being surfaced
separately. -/
theorem C3_counterexample :
    (installFromCodeLockFree envRelFail 9 "x" "some code" (some "1.0.0")
        (emitE (emitE s0 (.ensureDir "plugins")) .lockAcquire)).1 =
      .ok ⟨"x", ⟨1, 0, 0⟩, "plugins/x", "plugins/x/index.js", []⟩
    ∧ (installFromCode envRelFail 9 "x" "some code" (some "1.0.0") s0).1 =
      .error .lockReleaseFailure := by decide

/-- C3 (amended): the lock release is attempted in all outcomes of the
guarded body (the release event always follows the body's trace); when the
release succeeds the body's own result or error propagates unchanged; but
when the release fails, its error replaces the primary outcome — the
caller observes `LockReleaseFailure` instead of the body's result. -/
theorem C3_release_semantics (env : Env) (α : Type) (body : M α) (s : PMState)
    (fuel : Nat) (name : String) (spec : Option VersionSpec) :
    ((tryFinallyM body (syncUnlock env)) s).2.trace =
      (body s).2.trace ++ [.lockRelease]
    ∧ (env.lockReleaseFails = false →
        ((tryFinallyM body (syncUnlock env)) s).1 = (body s).1)
    ∧ (env.lockReleaseFails = true →
        ((tryFinallyM body (syncUnlock env)) s).1 = .error .lockReleaseFailure)
    ∧ (env.lockAcquireFails = false →
        (install env fuel name spec s).2.trace =
          (installLockFree env fuel name spec
            (emitE (emitE s (.ensureDir env.pluginsPath)) .lockAcquire)).2.trace
          ++ [.lockRelease]) := by
  refine ⟨?_, ?_, ?_, ?_⟩
  · cases hb : body s with
    | mk rb s1 =>
        cases hR : env.lockReleaseFails <;>
          simp [tryFinallyM, hb, syncUnlock, hR, emitE]
  · intro hR
    cases hb : body s with
    | mk rb s1 => simp [tryFinallyM, hb, syncUnlock, hR, emitE]
  · intro hR
    cases hb : body s with
    | mk rb s1 => simp [tryFinallyM, hb, syncUnlock, hR, emitE]
  · intro hA
    cases hb : installLockFree env fuel name spec
        (emitE (emitE s (.ensureDir env.pluginsPath)) .lockAcquire) with
    | mk rb s1 =>
        simp only [emitE, List.append_assoc, List.cons_append,
          List.nil_append] at hb
        cases hR : env.lockReleaseFails <;>
          simp [install, lockGuarded, ensureRootDir, syncLock, hA,
                tryFinallyM, hb, syncUnlock, hR, emitE]

/-- Witness for C3 (amended): the release-success and release-failure
branches at a trivial body. -/
theorem C3_release_semantics_witness :
    (tryFinallyM (fun s => (.ok (), s)) (syncUnlock env0) s0).1 = .ok ()
    ∧ (tryFinallyM (fun s => (.ok (), s)) (syncUnlock envRelFail) s0).1 =
        .error .lockReleaseFailure :=
  ⟨(C3_release_semantics env0 Unit (fun s => (.ok (), s)) s0 0 "" none).2.1 rfl,
   (C3_release_semantics envRelFail Unit (fun s => (.ok (), s)) s0 0 "" none).2.2.1 rfl⟩

/-! ### C4 — stale directory is not deleted before materialization -/

/-- C4: `removeDownloaded`'s `directoryExists` check is inverted, so an
EXISTING stale directory for the name is a no-op (nothing is removed), and
the subsequent npm materialization runs with the stale directory still in
place: the trace holds the download but no `fs.remove` of the plugin
location, and the stale leftover file survives the extraction overlay. -/
theorem C4_stale_directory_not_deleted :
    removeDownloaded envStale "x" sStale = (.ok (), sStale)
    ∧ (alFind sStale.fsDirs (getPluginLocation envStale "x")).isSome = true
    ∧ (installFromNpmLockFree envStale 9 "x" none sStale).2.trace.contains
        (.fsRemove "plugins/x") = false
    ∧ (installFromNpmLockFree envStale 9 "x" none sStale).2.trace.contains
        (.npmDownload "x" v1) = true
    ∧ ((alFind (installFromNpmLockFree envStale 9 "x" none sStale).2.fsDirs
          "plugins/x").map (fun d => alFind d.files "old.js")) =
        some (some "OLD") := by decide

/-! ### C5 — the 0.0.0 sentinel does not always reinstall -/

/-- C5: `installFromCode("x", "NEW")` with the version omitted, on a manager
whose registry is empty while the store already holds a directory for `x`
with a 0.0.0 manifest, succeeds WITHOUT rewriting the entry file: the old
source text stays on disk and no file write occurs at all. -/
theorem C5_sentinel_not_reinstalled :
    (installFromCode env0 9 "x" "NEW" none sCode).1 =
      .ok ⟨"x", ⟨0, 0, 0⟩, "plugins/x", "plugins/x/index.js", []⟩
    ∧ ((alFind (installFromCode env0 9 "x" "NEW" none sCode).2.fsDirs
          "plugins/x").map (fun d => alFind d.files "index.js")) =
        some (some "OLD")
    ∧ ((installFromCode env0 9 "x" "NEW" none sCode).2.trace.any
        (fun e => match e with | .fsWriteFile _ _ => true | _ => false)) =
        false := by decide

/-! ### C7 — ignore patterns: counterexample -/

/-- C7 counterexample: with the literal ignore pattern `"lodash"`, the
dependency `"lodash-es"` — a different name — IS skipped: `shouldIgnore`
matches the literal as an unanchored regex, and the dependency loop
installs nothing and returns the empty dictionary. -/
theorem C7_counterexample :
    shouldIgnore envIgnore "lodash-es" = true
    ∧ "lodash-es" ≠ "lodash"
    ∧ installDependencies envIgnore 5 plugLodash s0 = (.ok [], s0) := by decide

/-! ### C9 — list() is a pure, fresh-copy read -/

/-- C9: `list()` returns the installed descriptors in insertion order and
leaves the manager state (in particular the registry) unchanged; because
the caller receives a fresh copy (`map(p => p)`) and every subsequent
operation reads the state rather than the returned array, subsequent
`list`/`getInfo`/`install` results are unaffected by whatever the caller
does with the returned value. -/
theorem C9_list_frame (s : PMState) (n : String) (env : Env) (fuel : Nat)
    (name : String) (spec : Option VersionSpec) :
    listM s = (.ok s.installedPlugins, s)
    ∧ getFullInfo (listM s).2 n = getFullInfo s n
    ∧ (listM (listM s).2).1 = .ok s.installedPlugins
    ∧ install env fuel name spec (listM s).2 = install env fuel name spec s := by
  refine ⟨?_, rfl, ?_, rfl⟩
  · simp [listM, listPlugins]
  · simp [listM, listPlugins]

/-! ### C10 — descriptors always carry a (possibly empty) dependency map -/

/-- C10: `createPluginInfo` defaults a missing manifest `dependencies` field
to the empty map: for any store directory whose manifest carries a
(nonempty) name and a version, the built descriptor's dependency map is
the manifest's map or `[]`, and in particular `[]` when the field is
absent — so dependency iteration and the uninstall cascade's per-dependent
lookup are total for every produced descriptor. -/
theorem C10_dependencies_default (env : Env) (s : PMState) (name nm : String)
    (v : SemVer) (mn : Option String) (dps : Option (List (String × VRange)))
    (dir : PluginDirectory)
    (hdir : alFind s.fsDirs (getPluginLocation env name) = some dir)
    (hpj : dir.packageJson = some ⟨some nm, some v, mn, dps⟩)
    (hne : nm ≠ "") :
    ∃ d, createPluginInfo env name s = (.ok d, s)
      ∧ d.dependencies = dps.getD []
      ∧ (dps = none → d.dependencies = []) := by
  refine ⟨⟨nm, v, getPluginLocation env name,
    (fun m => if hasExtension m then m else m ++ ".js")
      (pathJoin (getPluginLocation env name) (mn.getD DefaultMainFile)),
    dps.getD []⟩, ?_, rfl, ?_⟩
  · simp [createPluginInfo, readPackageJsonFromPath, hdir, hpj, hne]
  · intro h; simp [h]

/-- Witness for C10 at a store directory with no `dependencies` field. -/
theorem C10_dependencies_default_witness :
    ∃ d, createPluginInfo env0 "x" sCode = (.ok d, sCode)
      ∧ d.dependencies = (none : Option (List (String × VRange))).getD []
      ∧ ((none : Option (List (String × VRange))) = none → d.dependencies = []) :=
  C10_dependencies_default env0 sCode "x" "x" ⟨0, 0, 0⟩ none none dirCode
    (by decide) (by decide) (by decide)

/-! ### C8 — uninstall cascade machinery -/

/-- The unload cascade only ever appends to the trace: the registry and the
store are untouched by `unloadWithDependents` and its scan. -/
theorem cascadeStateInv : ∀ (fuel : Nat) (env : Env),
    (∀ plugin s,
      (unloadWithDependents env fuel plugin s).2.installedPlugins = s.installedPlugins
      ∧ (unloadWithDependents env fuel plugin s).2.fsDirs = s.fsDirs)
    ∧ (∀ lst plugin s,
      (unloadScan env fuel lst plugin s).2.installedPlugins = s.installedPlugins
      ∧ (unloadScan env fuel lst plugin s).2.fsDirs = s.fsDirs) := by
  intro fuel
  induction fuel with
  | zero =>
      intro env
      exact ⟨fun p s => ⟨rfl, rfl⟩, fun l p s => ⟨rfl, rfl⟩⟩
  | succ n IH =>
      intro env
      obtain ⟨IHw, IHs⟩ := IH env
      constructor
      · intro plugin s
        have h := IHs (emitE s (.unload plugin.name)).installedPlugins plugin
          (emitE s (.unload plugin.name))
        simp only [emitE] at h
        simpa [unloadWithDependents, unloadM, emitE] using h
      · intro lst plugin s
        match lst with
        | [] => simp [unloadScan]
        | installed :: rest =>
            by_cases hdep : (alFind installed.dependencies plugin.name).isSome
            · cases hc : unloadWithDependents env n installed s with
              | mk rc s2 =>
                  have hw : s2.installedPlugins = s.installedPlugins
                      ∧ s2.fsDirs = s.fsDirs := by
                    have h0 := IHw installed s
                    rw [hc] at h0
                    exact h0
                  cases rc with
                  | ok u =>
                      have hs2 := IHs rest plugin s2
                      simp [unloadScan, hdep, hc, hs2.1, hs2.2, hw.1, hw.2]
                  | error e =>
                      simp [unloadScan, hdep, hc, hw.1, hw.2]
            · have hs2 := IHs rest plugin s
              simp [unloadScan, hdep, hs2.1, hs2.2]

/-- Transitive dependency on the uninstall target, over a fixed registry
snapshot `reg`: the target itself, and every member of `reg` whose
dependency map contains the name of a plugin already in the cascade. -/
inductive Cascades (reg : List PluginInfo) (root : PluginInfo) : PluginInfo → Prop
  | base : Cascades reg root root
  | step (p q : PluginInfo) : Cascades reg root p → q ∈ reg →
      (alFind q.dependencies p.name).isSome = true → Cascades reg root q

theorem cascades_trans {reg : List PluginInfo} {root mid q : PluginInfo}
    (h1 : Cascades reg root mid) (h2 : Cascades reg mid q) :
    Cascades reg root q := by
  induction h2 with
  | base => exact h1
  | step p r hp hr hdep ih => exact .step p r ih hr hdep

/-- Every unload event emitted by the cascade names the cascade root or one
of its transitive dependents in the registry snapshot. -/
theorem cascadeUnloads : ∀ (fuel : Nat) (env : Env),
    (∀ root s e, e ∈ (unloadWithDependents env fuel root s).2.trace →
      e ∈ s.trace ∨ ∃ q, Cascades s.installedPlugins root q ∧ e = .unload q.name)
    ∧ (∀ lst root s e, (∀ x ∈ lst, x ∈ s.installedPlugins) →
        e ∈ (unloadScan env fuel lst root s).2.trace →
        e ∈ s.trace ∨ ∃ q, Cascades s.installedPlugins root q ∧ e = .unload q.name) := by
  intro fuel
  induction fuel with
  | zero =>
      intro env
      exact ⟨fun root s e h => .inl h, fun lst root s e _ h => .inl h⟩
  | succ n IH =>
      intro env
      obtain ⟨IHw, IHs⟩ := IH env
      constructor
      · intro root s e he
        have hstep := IHs (emitE s (.unload root.name)).installedPlugins root
          (emitE s (.unload root.name)) e (fun x hx => hx)
        simp only [unloadWithDependents, unloadM] at he
        rcases hstep he with h1 | ⟨q, hq, rfl⟩
        · simp only [emitE, List.mem_append, List.mem_singleton] at h1
          rcases h1 with h2 | rfl
          · exact .inl h2
          · exact .inr ⟨root, .base, rfl⟩
        · exact .inr ⟨q, by simpa [emitE] using hq, rfl⟩
      · intro lst root s e hlst he
        match lst with
        | [] =>
            simp only [unloadScan] at he
            exact .inl he
        | installed :: rest =>
            have hmem : installed ∈ s.installedPlugins := hlst installed (by simp)
            have hrest : ∀ x ∈ rest, x ∈ s.installedPlugins :=
              fun x hx => hlst x (by simp [hx])
            by_cases hdep : (alFind installed.dependencies root.name).isSome
            · cases hc : unloadWithDependents env n installed s with
              | mk rc s2 =>
                  have hw := (cascadeStateInv n env).1 installed s
                  rw [hc] at hw
                  have hroot : Cascades s.installedPlugins root installed :=
                    .step root installed .base hmem (by simpa using hdep)
                  have fromW : e ∈ s2.trace →
                      e ∈ s.trace ∨ ∃ q, Cascades s.installedPlugins root q ∧
                        e = .unload q.name := by
                    intro h2
                    have := IHw installed s e (by rw [hc]; exact h2)
                    rcases this with h3 | ⟨q, hq, rfl⟩
                    · exact .inl h3
                    · exact .inr ⟨q, cascades_trans hroot hq, rfl⟩
                  cases rc with
                  | ok u =>
                      simp only [unloadScan, hdep, if_true, hc] at he
                      have := IHs rest root s2 e
                        (fun x hx => by rw [hw.1]; exact hrest x hx) he
                      rcases this with h2 | ⟨q, hq, rfl⟩
                      · exact fromW h2
                      · rw [hw.1] at hq
                        exact .inr ⟨q, hq, rfl⟩
                  | error er =>
                      simp only [unloadScan, hdep, if_true, hc] at he
                      exact fromW he
            · simp only [unloadScan, hdep, if_false] at he
              exact IHs rest root s e hrest he

theorem strAppendCancel {s a b : String} (h : s ++ a = s ++ b) : a = b := by
  have h2 : (s ++ a).data = (s ++ b).data := by rw [h]
  rw [String.data_append, String.data_append] at h2
  have h3 := List.append_cancel_left h2
  cases a with
  | mk la =>
      cases b with
      | mk lb => simp only [String.data] at h3; rw [h3]

theorem getPluginLocation_inj (env : Env) {a b : String}
    (h : getPluginLocation env a = getPluginLocation env b) : a = b :=
  strAppendCancel (s := env.pluginsPath ++ "/") (by
    simpa [getPluginLocation, pathJoin, String.append_assoc] using h)

theorem alFind_alErase_ne {β : Type} (l : List (String × β)) (key loc : String)
    (h : loc ≠ key) : alFind (alErase l key) loc = alFind l loc := by
  induction l with
  | nil => rfl
  | cons kv rest ih =>
      obtain ⟨k, v⟩ := kv
      show alFind (if k = key then alErase rest key else (k, v) :: alErase rest key) loc
        = if k = loc then some v else alFind rest loc
      by_cases hk : k = key
      · rw [if_pos hk, ih, if_neg (fun hh : k = loc => h (hh ▸ hk))]
      · rw [if_neg hk]
        show (if k = loc then some v else alFind (alErase rest key) loc) = _
        by_cases hl : k = loc
        · rw [if_pos hl, if_pos hl]
        · rw [if_neg hl, if_neg hl, ih]

theorem alFind_alErase_self {β : Type} (l : List (String × β)) (key : String) :
    alFind (alErase l key) key = none := by
  induction l with
  | nil => rfl
  | cons kv rest ih =>
      obtain ⟨k, v⟩ := kv
      by_cases hk : k = key
      · simp [alErase, hk, ih]
      · simp [alErase, hk, alFind, ih]

theorem erase_eq_filter_of_nodup (l : List PluginInfo) (t : PluginInfo)
    (name : String) (hnd : (l.map PluginInfo.name).Nodup)
    (hfind : l.find? (fun p => p.name == name) = some t) :
    l.erase t = l.filter (fun p => !(p.name == name)) := by
  induction l with
  | nil => simp at hfind
  | cons a rest ih =>
      by_cases ha : a.name = name
      · rw [List.find?_cons_of_pos _ (by simp [ha])] at hfind
        have hta : t = a := by simpa using hfind.symm
        subst hta
        rw [List.erase_cons_head]
        have hrest : ∀ x ∈ rest, x.name ≠ name := by
          intro x hx hxn
          have : t.name ∈ rest.map PluginInfo.name :=
            List.mem_map.mpr ⟨x, hx, by rw [hxn, ha]⟩
          exact (List.nodup_cons.mp hnd).1 this
        have hane : (t.name == name) = true := by simp [ha]
        simp only [List.filter_cons, hane, Bool.not_true, Bool.false_eq_true,
          if_false]
        exact (List.filter_eq_self.mpr (fun x hx => by simp [hrest x hx])).symm
      · rw [List.find?_cons_of_neg _ (by simp [ha])] at hfind
        have htmem := List.mem_of_find?_eq_some hfind
        have htname : t.name = name := by
          have := List.find?_some hfind
          simpa using this
        have hat : ¬(a == t) = true := by
          intro hb
          have hab : a = t := by simpa using hb
          exact ha (hab ▸ htname)
        have hane : (a.name == name) = false := by simp [ha]
        rw [List.erase_cons_tail (by simpa using hat)]
        simp only [List.filter_cons, hane, Bool.not_false, if_true]
        rw [ih (List.nodup_cons.mp hnd).2 hfind]

/-- C8: the uninstall of a target only removes the target: every other
installed descriptor keeps its registry entry and its store directory;
the registry afterwards is exactly the original minus the (unique) entry
for the uninstalled name; only the target's directory is deleted; and
every unload event emitted by the run names the target or one of its
transitive dependents in the registry. -/
theorem C8_uninstall_frame (env : Env) (fuel : Nat) (name : String) (s : PMState)
    (hnd : (s.installedPlugins.map PluginInfo.name).Nodup)
    (hloc : ∀ p ∈ s.installedPlugins, p.location = getPluginLocation env p.name)
    (hok : (uninstallLockFree env fuel name s).1 = .ok ()) :
    (uninstallLockFree env fuel name s).2.installedPlugins =
        s.installedPlugins.filter (fun p => !(p.name == name))
    ∧ (∀ p ∈ s.installedPlugins, p.name ≠ name →
        p ∈ (uninstallLockFree env fuel name s).2.installedPlugins
        ∧ alFind (uninstallLockFree env fuel name s).2.fsDirs p.location =
            alFind s.fsDirs p.location)
    ∧ (∀ loc, loc ≠ getPluginLocation env name →
        alFind (uninstallLockFree env fuel name s).2.fsDirs loc =
          alFind s.fsDirs loc)
    ∧ (∀ m, Effect.unload m ∈ (uninstallLockFree env fuel name s).2.trace →
        Effect.unload m ∈ s.trace ∨ ∃ tgt q, getFullInfo s name = some tgt ∧
          Cascades (s.installedPlugins.erase tgt) tgt q ∧ m = q.name) := by
  by_cases hv : isValidPluginName name
  case neg =>
    exfalso
    simp [uninstallLockFree, hv] at hok
  case pos =>
  cases hf : getFullInfo s name with
  | none =>
      have hall : ∀ p ∈ s.installedPlugins, (p.name == name) = false := by
        intro p hp
        have := List.find?_eq_none.mp hf p hp
        simpa using this
      have hres : uninstallLockFree env fuel name s = (.ok (), s) := by
        simp [uninstallLockFree, hv, hf]
      rw [hres]
      refine ⟨?_, ?_, ?_, ?_⟩
      · rw [List.filter_eq_self.mpr (fun p hp => by simp [hall p hp])]
      · exact fun p hp _ => ⟨hp, rfl⟩
      · exact fun loc _ => rfl
      · exact fun m hm => .inl hm
  | some tgt =>
      have htname : tgt.name = name := by
        have := List.find?_some hf
        simpa using this
      have htmem : tgt ∈ s.installedPlugins := List.mem_of_find?_eq_some hf
      have htloc : tgt.location = getPluginLocation env name :=
        htname ▸ hloc tgt htmem
      -- unfold uninstall into delete-and-unload
      cases hc : unloadWithDependents env fuel tgt
          { s with installedPlugins := s.installedPlugins.erase tgt } with
      | mk rc s2 =>
          have hw : s2.installedPlugins = s.installedPlugins.erase tgt
              ∧ s2.fsDirs = s.fsDirs := by
            have h0 := (cascadeStateInv fuel env).1 tgt
              { s with installedPlugins := s.installedPlugins.erase tgt }
            rw [hc] at h0
            exact h0
          cases rc with
          | error e =>
              exfalso
              simp [uninstallLockFree, hv, hf, deleteAndUnloadPlugin, hc] at hok
          | ok u =>
              have hres : uninstallLockFree env fuel name s =
                  (.ok (), { emitE s2 (.fsRemove tgt.location) with
                              fsDirs := alErase s2.fsDirs tgt.location }) := by
                simp [uninstallLockFree, hv, hf, deleteAndUnloadPlugin, hc,
                      fsRemoveM]
              rw [hres]
              have hfilter := erase_eq_filter_of_nodup s.installedPlugins tgt
                name hnd hf
              refine ⟨?_, ?_, ?_, ?_⟩
              · simp [emitE, hw.1, hfilter]
              · intro p hp hpn
                constructor
                · simp only [emitE, hw.1, hfilter]
                  exact List.mem_filter.mpr ⟨hp, by simp [hpn]⟩
                · have hploc : p.location ≠ tgt.location := by
                    rw [htloc, hloc p hp]
                    intro hh
                    exact hpn (getPluginLocation_inj env hh)
                  show alFind (alErase s2.fsDirs tgt.location) p.location =
                    alFind s.fsDirs p.location
                  rw [alFind_alErase_ne s2.fsDirs tgt.location p.location hploc,
                      hw.2]
              · intro loc hl
                simp only [emitE]
                rw [alFind_alErase_ne s2.fsDirs tgt.location loc
                  (htloc ▸ hl), hw.2]
              · intro m hm
                simp only [emitE, List.mem_append, List.mem_singleton] at hm
                rcases hm with hm | hm
                · have := (cascadeUnloads fuel env).1 tgt
                    { s with installedPlugins := s.installedPlugins.erase tgt }
                    (.unload m) (by rw [hc]; exact hm)
                  rcases this with h1 | ⟨q, hq, he⟩
                  · exact .inl h1
                  · refine .inr ⟨tgt, q, rfl, ?_, ?_⟩
                    · simpa using hq
                    · simpa using he
                · exact absurd hm (by simp)

/-- Witness for C8: uninstalling `t` from a two-plugin registry leaves
exactly the other plugin installed. -/
theorem C8_uninstall_frame_witness :
    (uninstallLockFree env0 9 "t" sUninst).2.installedPlugins =
      sUninst.installedPlugins.filter (fun p => !(p.name == "t")) :=
  (C8_uninstall_frame env0 9 "t" sUninst (by decide) (by decide) (by decide)).1

/-! ### C1 — dependency cycles do not self-terminate -/

/-- The descriptor `createPluginInfo` builds for the cycle member `A`. -/
def cdA : PluginInfo :=
  ⟨"A", v1, "plugins/A", "plugins/A/index.js", [("B", .exact v1)]⟩

/-- The descriptor `createPluginInfo` builds for the cycle member `B`. -/
def cdB : PluginInfo :=
  ⟨"B", v1, "plugins/B", "plugins/B/index.js", [("A", .exact v1)]⟩

/-- The invariant that persists through the entire cycle recursion: the
registry never gains a member (the push in `addPlugin` is unreachable,
because it follows the dependency installation), and the store keeps the
two pre-materialized cycle directories. -/
def cycleInv (s : PMState) : Prop :=
  s.installedPlugins = [] ∧ alFind s.fsDirs "plugins/A" = some dirA
  ∧ alFind s.fsDirs "plugins/B" = some dirB

/-- An execution outcome that exhausted its fuel while preserving the cycle
invariant. -/
def stuck {α : Type} (r : Except PMError α × PMState) : Prop :=
  r.1 = .error .outOfFuel ∧ cycleInv r.2

theorem cycle_already_none (s : PMState) (h : s.installedPlugins = [])
    (name : String) (r : Option VRange) : alreadyInstalled s name r = none := by
  simp [alreadyInstalled, getFullInfo, h]

theorem cycle_res_A :
    envCycle.npmResolve "A" (some (.exact v1)) = some ⟨"A", v1⟩ := by decide

theorem cycle_res_B :
    envCycle.npmResolve "B" (some (.exact v1)) = some ⟨"B", v1⟩ := by decide

theorem cycle_loc_A : getPluginLocation envCycle "A" = "plugins/A" := by decide

theorem cycle_loc_B : getPluginLocation envCycle "B" = "plugins/B" := by decide

theorem cycleInv_emitE (s : PMState) (e : Effect) (hs : cycleInv s) :
    cycleInv (emitE s e) := hs

theorem cycle_downloaded_A (s : PMState) (hs : cycleInv s) :
    isAlreadyDownloadedPure envCycle s "A" v1 = true := by
  simp [isAlreadyDownloadedPure, cycle_loc_A, hs.2.1, readPackageJsonFromPath,
        dirA]

theorem cycle_downloaded_B (s : PMState) (hs : cycleInv s) :
    isAlreadyDownloadedPure envCycle s "B" v1 = true := by
  simp [isAlreadyDownloadedPure, cycle_loc_B, hs.2.2, readPackageJsonFromPath,
        dirB]

theorem cycle_create_A (s : PMState) (hs : cycleInv s) :
    createPluginInfo envCycle "A" s = (.ok cdA, s) := by
  simp [createPluginInfo, readPackageJsonFromPath, cycle_loc_A, hs.2.1, dirA,
        cdA, (by decide : hasExtension "plugins/A/index.js" = true),
        (by decide : pathJoin "plugins/A" DefaultMainFile = "plugins/A/index.js")]

theorem cycle_create_B (s : PMState) (hs : cycleInv s) :
    createPluginInfo envCycle "B" s = (.ok cdB, s) := by
  simp [createPluginInfo, readPackageJsonFromPath, cycle_loc_B, hs.2.2, dirB,
        cdB, (by decide : hasExtension "plugins/B/index.js" = true),
        (by decide : pathJoin "plugins/B" DefaultMainFile = "plugins/B/index.js")]

theorem cycle_npm_step_A (n : Nat) (s : PMState) (hs : cycleInv s) :
    installFromNpmLockFree envCycle (n + 1) "A" (some (.exact v1)) s =
      addPlugin envCycle n cdA (emitE s (.resolveNpm "A")) := by
  have hs1 : cycleInv (emitE s (.resolveNpm "A")) := hs
  simp only [installFromNpmLockFree]
  rw [if_neg (by decide)]
  simp only [npmGet, cycle_res_A]
  rw [cycle_already_none _ hs1.1, cycle_already_none _ hs1.1]
  simp only [Option.isSome_none, Bool.false_eq_true, if_false,
    cycle_downloaded_A _ hs1, Bool.not_true, cycle_create_A _ hs1]

theorem cycle_npm_step_B (n : Nat) (s : PMState) (hs : cycleInv s) :
    installFromNpmLockFree envCycle (n + 1) "B" (some (.exact v1)) s =
      addPlugin envCycle n cdB (emitE s (.resolveNpm "B")) := by
  have hs1 : cycleInv (emitE s (.resolveNpm "B")) := hs
  simp only [installFromNpmLockFree]
  rw [if_neg (by decide)]
  simp only [npmGet, cycle_res_B]
  rw [cycle_already_none _ hs1.1, cycle_already_none _ hs1.1]
  simp only [Option.isSome_none, Bool.false_eq_true, if_false,
    cycle_downloaded_B _ hs1, Bool.not_true, cycle_create_B _ hs1]

/-- The joint fuel induction: starting from any state satisfying the cycle
invariant, every function of the install recursion on the cycle members
runs out of fuel, for every fuel bound, and the registry never gains a
member along the way. -/
theorem cycleStuckAll : ∀ n : Nat,
    (∀ s, cycleInv s →
      stuck (installFromNpmLockFree envCycle n "A" (some (.exact v1)) s))
    ∧ (∀ s, cycleInv s →
      stuck (installFromNpmLockFree envCycle n "B" (some (.exact v1)) s))
    ∧ (∀ s, cycleInv s →
      stuck (installLockFree envCycle n "A" (some (.range (.exact v1))) s))
    ∧ (∀ s, cycleInv s →
      stuck (installLockFree envCycle n "B" (some (.range (.exact v1))) s))
    ∧ (∀ s, cycleInv s → stuck (addPlugin envCycle n cdA s))
    ∧ (∀ s, cycleInv s → stuck (addPlugin envCycle n cdB s))
    ∧ (∀ s, cycleInv s → stuck (installDependencies envCycle n cdA s))
    ∧ (∀ s, cycleInv s → stuck (installDependencies envCycle n cdB s))
    ∧ (∀ s, cycleInv s → stuck (installDepsList envCycle n [("B", .exact v1)] s))
    ∧ (∀ s, cycleInv s → stuck (installDepsList envCycle n [("A", .exact v1)] s)) := by
  intro n
  induction n with
  | zero =>
      exact ⟨fun s hs => ⟨rfl, hs⟩, fun s hs => ⟨rfl, hs⟩, fun s hs => ⟨rfl, hs⟩,
        fun s hs => ⟨rfl, hs⟩, fun s hs => ⟨rfl, hs⟩, fun s hs => ⟨rfl, hs⟩,
        fun s hs => ⟨rfl, hs⟩, fun s hs => ⟨rfl, hs⟩, fun s hs => ⟨rfl, hs⟩,
        fun s hs => ⟨rfl, hs⟩⟩
  | succ n IH =>
      obtain ⟨ihNA, ihNB, ihLA, ihLB, ihAA, ihAB, ihDA, ihDB, ihSB, ihSA⟩ := IH
      refine ⟨?_, ?_, ?_, ?_, ?_, ?_, ?_, ?_, ?_, ?_⟩
      · intro s hs
        rw [cycle_npm_step_A n s hs]
        exact ihAA _ (cycleInv_emitE s _ hs)
      · intro s hs
        rw [cycle_npm_step_B n s hs]
        exact ihAB _ (cycleInv_emitE s _ hs)
      · intro s hs
        have h := ihNA s hs
        simp only [installLockFree]
        rw [if_neg (by decide)]
        exact h
      · intro s hs
        have h := ihNB s hs
        simp only [installLockFree]
        rw [if_neg (by decide)]
        exact h
      · intro s hs
        have h := ihDA s hs
        simp only [addPlugin]
        cases hr : installDependencies envCycle n cdA s with
        | mk r1 s1 =>
            rw [hr] at h
            obtain ⟨h1, h2⟩ := h
            cases r1 with
            | ok l => exact absurd h1 (by simp)
            | error e =>
                cases h1
                exact ⟨rfl, h2⟩
      · intro s hs
        have h := ihDB s hs
        simp only [addPlugin]
        cases hr : installDependencies envCycle n cdB s with
        | mk r1 s1 =>
            rw [hr] at h
            obtain ⟨h1, h2⟩ := h
            cases r1 with
            | ok l => exact absurd h1 (by simp)
            | error e =>
                cases h1
                exact ⟨rfl, h2⟩
      · intro s hs
        exact ihSB s hs
      · intro s hs
        exact ihSA s hs
      · intro s hs
        have h := ihLB s hs
        simp only [installDepsList]
        rw [if_neg (by decide)]
        rw [if_neg (by decide)]
        rw [cycle_already_none s hs.1]
        simp only [Option.isSome_none, Bool.false_eq_true, if_false]
        cases hr : installLockFree envCycle n "B" (some (.range (.exact v1))) s with
        | mk r1 s1 =>
            rw [hr] at h
            obtain ⟨h1, h2⟩ := h
            cases r1 with
            | ok p => exact absurd h1 (by simp)
            | error e =>
                cases h1
                exact ⟨rfl, h2⟩
      · intro s hs
        have h := ihLA s hs
        simp only [installDepsList]
        rw [if_neg (by decide)]
        rw [if_neg (by decide)]
        rw [cycle_already_none s hs.1]
        simp only [Option.isSome_none, Bool.false_eq_true, if_false]
        cases hr : installLockFree envCycle n "A" (some (.range (.exact v1))) s with
        | mk r1 s1 =>
            rw [hr] at h
            obtain ⟨h1, h2⟩ := h
            cases r1 with
            | ok p => exact absurd h1 (by simp)
            | error e =>
                cases h1
                exact ⟨rfl, h2⟩

/-- C1 counterexample: on the mutually compatible cycle `A ⇄ B` (both
ranges exact and satisfied), `install("A")` recursion never registers any
cycle member — the registry is still empty when the fuel runs out — and
the recursion re-enters the resolution of `A` again and again (at least
three npm resolves of `A` in this bounded run) instead of finding it
"already installed" and stopping. -/
theorem C1_counterexample :
    (install envCycle 30 "A" (some (.range (.exact v1))) sCycle).1 =
      .error .outOfFuel
    ∧ (install envCycle 30 "A" (some (.range (.exact v1))) sCycle).2.installedPlugins = []
    ∧ 3 ≤ ((install envCycle 30 "A" (some (.range (.exact v1))) sCycle).2.trace.filter
        (fun e => e == .resolveNpm "A")).length := by decide

/-- C1 (amended): recursive dependency installation does NOT self-terminate
on a mutually compatible dependency cycle: because `addPlugin` installs a
descriptor's dependencies BEFORE appending the descriptor to the Registry,
an install request for a cycle member inside the recursion never finds it
already installed; for every fuel bound the run exhausts its fuel, with
the Registry never having gained a single member. -/
theorem C1_cycle_diverges : ∀ n : Nat,
    (install envCycle n "A" (some (.range (.exact v1))) sCycle).1 =
      .error .outOfFuel
    ∧ (install envCycle n "A" (some (.range (.exact v1)))
        sCycle).2.installedPlugins = [] := by
  intro n
  have hs' : cycleInv
      (emitE (emitE sCycle (.ensureDir envCycle.pluginsPath)) .lockAcquire) :=
    ⟨rfl, by decide, by decide⟩
  have hb := (cycleStuckAll n).2.2.1 _ hs'
  cases hr : installLockFree envCycle n "A" (some (.range (.exact v1)))
      (emitE (emitE sCycle (.ensureDir envCycle.pluginsPath)) .lockAcquire) with
  | mk r1 s1 =>
      rw [hr] at hb
      have hrun : install envCycle n "A" (some (.range (.exact v1))) sCycle =
          (r1, emitE s1 .lockRelease) := by
        simp [install, lockGuarded, ensureRootDir, syncLock, tryFinallyM, hr,
              syncUnlock, (by decide : envCycle.lockAcquireFails = false),
              (by decide : envCycle.lockReleaseFails = false)]
      rw [hrun]
      exact ⟨hb.1, hb.2.1⟩

/-! ### C6 — idempotent re-install machinery -/

/-- The npm materialization contract: the extracted payload for
`name@version` ships a manifest whose name and version are exactly the
resolved ones. -/
def PayloadSane (env : Env) : Prop :=
  ∀ nm v, ∃ mn dps,
    (env.npmPayload nm v).packageJson = some ⟨some nm, some v, mn, dps⟩

theorem satisfies_exact (v w : SemVer) : satisfies v (.exact w) = (v == w) := rfl

theorem alreadyInstalled_some (s : PMState) (name : String) (r : Option VRange)
    (i : PluginInfo) (h : alreadyInstalled s name r = some i) :
    i ∈ s.installedPlugins ∧ i.name = name
    ∧ ∀ rr, r = some rr → satisfies i.version rr = true := by
  cases hgf : getFullInfo s name with
  | none => simp only [alreadyInstalled, hgf] at h; cases h
  | some j =>
      have hgf2 : s.installedPlugins.find? (fun p => p.name == name) = some j := hgf
      have hm := List.mem_of_find?_eq_some hgf2
      have hn0 := List.find?_some hgf2
      have hn : (j.name == name) = true := hn0
      cases r with
      | none =>
          simp only [alreadyInstalled, hgf] at h
          cases h
          exact ⟨hm, by simpa using hn, fun rr hrr => by cases hrr⟩
      | some rr =>
          simp only [alreadyInstalled, hgf] at h
          cases hsat : satisfies j.version rr with
          | false => rw [hsat] at h; simp at h
          | true =>
              rw [hsat] at h
              simp only [if_true] at h
              cases h
              exact ⟨hm, by simpa using hn, fun rr2 hrr2 => by
                cases hrr2; exact hsat⟩

theorem removeDownloaded_fields (env : Env) (nm : String) (s : PMState) :
    (removeDownloaded env nm s).1 = .ok ()
    ∧ (removeDownloaded env nm s).2.installedPlugins = s.installedPlugins := by
  unfold removeDownloaded
  cases h : alFind s.fsDirs (getPluginLocation env nm) <;>
    simp [h, fsRemoveM, emitE]

theorem alFind_alSet_self {β : Type} (l : List (String × β)) (key : String)
    (v : β) : alFind (alSet l key v) key = some v := by
  induction l with
  | nil => simp [alSet, alFind]
  | cons kv rest ih =>
      obtain ⟨k, w⟩ := kv
      by_cases hk : k = key
      · simp [alSet, hk, alFind]
      · simp [alSet, hk, alFind, ih]

theorem readPackageJson_of_manifest (s : PMState) (loc nm : String) (v : SemVer)
    (mn : Option String) (dps : Option (List (String × VRange)))
    (dir : PluginDirectory) (hdir : alFind s.fsDirs loc = some dir)
    (hpj : dir.packageJson = some ⟨some nm, some v, mn, dps⟩) (hne : nm ≠ "") :
    readPackageJsonFromPath s loc = .ok ⟨nm, v, mn, dps⟩ := by
  simp [readPackageJsonFromPath, hdir, hpj, hne]

theorem npmDownload_fields (env : Env) (info : PackageInfo) (s : PMState)
    (hpay : PayloadSane env) :
    (npmDownloadM env info s).1 = .ok ()
    ∧ (npmDownloadM env info s).2.installedPlugins = s.installedPlugins
    ∧ ∃ dir mn dps,
        alFind (npmDownloadM env info s).2.fsDirs
          (getPluginLocation env info.name) = some dir
        ∧ dir.packageJson = some ⟨some info.name, some info.version, mn, dps⟩ := by
  obtain ⟨mn, dps, hp⟩ := hpay info.name info.version
  refine ⟨rfl, rfl, ?_⟩
  cases hold : alFind s.fsDirs (getPluginLocation env info.name) with
  | none =>
      refine ⟨env.npmPayload info.name info.version, mn, dps, ?_, hp⟩
      simp [npmDownloadM, hold, emitE, alFind_alSet_self]
  | some old =>
      refine ⟨overlayDir old (env.npmPayload info.name info.version), mn, dps,
        ?_, ?_⟩
      · simp [npmDownloadM, hold, emitE, alFind_alSet_self]
      · simp [overlayDir, hp]

theorem alreadyDownloaded_read (env : Env) (s : PMState) (nm : String)
    (v : SemVer) (h : isAlreadyDownloadedPure env s nm v = true) :
    ∃ mn dps, readPackageJsonFromPath s (getPluginLocation env nm) =
      .ok ⟨nm, v, mn, dps⟩ := by
  simp only [isAlreadyDownloadedPure] at h
  cases h1 : alFind s.fsDirs (getPluginLocation env nm) with
  | none => rw [h1] at h; cases h
  | some dir =>
      rw [h1] at h
      cases h2 : readPackageJsonFromPath s (getPluginLocation env nm) with
      | error e => rw [h2] at h; cases h
      | ok pj =>
          rw [h2] at h
          simp only [Bool.and_eq_true, beq_iff_eq] at h
          obtain ⟨hn, hv⟩ := h
          refine ⟨pj.main, pj.dependencies, ?_⟩
          cases pj
          simp_all

theorem createPluginInfo_ok (env : Env) (nm : String) (s : PMState)
    (pj : PackageJsonInfo)
    (hread : readPackageJsonFromPath s (getPluginLocation env nm) = .ok pj) :
    ∃ mf, createPluginInfo env nm s =
      (.ok ⟨pj.name, pj.version, getPluginLocation env nm, mf,
        pj.dependencies.getD []⟩, s) :=
  ⟨if hasExtension (pathJoin (getPluginLocation env nm) (pj.main.getD DefaultMainFile))
      then pathJoin (getPluginLocation env nm) (pj.main.getD DefaultMainFile)
      else pathJoin (getPluginLocation env nm) (pj.main.getD DefaultMainFile) ++ ".js",
   by simp [createPluginInfo, hread]⟩

/-- Inverting a successful lock-free npm install: the returned descriptor is
registered in the final state, and its name and version are exactly those
of the resolved `PackageInfo`. -/
theorem npmLockFree_ok_facts (env : Env) (m : Nat) (name : String)
    (r : VRange) (s : PMState) (d : PluginInfo) (sb : PMState)
    (hpay : PayloadSane env)
    (hb : installFromNpmLockFree env (m + 1) name (some r) s = (.ok d, sb)) :
    isValidPluginName name = true
    ∧ ∃ info, env.npmResolve name (some r) = some info
        ∧ d ∈ sb.installedPlugins ∧ d.name = info.name
        ∧ d.version = info.version := by
  simp only [installFromNpmLockFree, npmGet] at hb
  by_cases hv : isValidPluginName name
  case neg =>
    rw [if_pos (by simp [hv])] at hb
    simp at hb
  case pos =>
  rw [if_neg (by simp [hv])] at hb
  refine ⟨hv, ?_⟩
  cases hres : env.npmResolve name (some r) with
  | none => rw [hres] at hb; simp at hb
  | some info =>
      rw [hres] at hb
      simp only [] at hb
      refine ⟨info, rfl, ?_⟩
      cases hai : alreadyInstalled (emitE s (.resolveNpm name)) info.name
          (some (.exact info.version)) with
      | some i =>
          rw [hai] at hb
          obtain ⟨hmem, hnm, hsat⟩ :=
            alreadyInstalled_some _ _ _ _ hai
          have hiv : i.version = info.version := by
            have := hsat (.exact info.version) rfl
            rw [satisfies_exact] at this
            simpa using this
          obtain ⟨h1, h2⟩ := Prod.mk.injEq .. ▸ hb
          cases h1
          rw [← h2]
          exact ⟨hmem, hnm, hiv⟩
      | none =>
          rw [hai] at hb
          -- the uninstall-if step
          cases hun : (if (alreadyInstalled (emitE s (.resolveNpm name))
              info.name none).isSome then
                uninstallLockFree env m info.name (emitE s (.resolveNpm name))
              else (.ok (), emitE s (.resolveNpm name))) with
          | mk ru su =>
              rw [hun] at hb
              cases ru with
              | error e => simp at hb
              | ok u =>
                  simp only [] at hb
                  -- the download-if step
                  by_cases hdl : isAlreadyDownloadedPure env su info.name
                      info.version
                  · rw [if_neg (by simp [hdl])] at hb
                    simp only [] at hb
                    obtain ⟨mn, dps, hread⟩ := alreadyDownloaded_read env su
                      info.name info.version hdl
                    obtain ⟨mf, hcr⟩ := createPluginInfo_ok env info.name su
                      ⟨info.name, info.version, mn, dps⟩ hread
                    rw [hcr] at hb
                    simp only [] at hb
                    -- addPlugin
                    cases m with
                    | zero => simp [addPlugin] at hb
                    | succ m2 =>
                        simp only [addPlugin] at hb
                        cases hdeps : installDependencies env m2
                            ⟨info.name, info.version,
                              getPluginLocation env info.name, mf,
                              dps.getD []⟩ su with
                        | mk rd s6 =>
                            rw [hdeps] at hb
                            cases rd with
                            | error e => simp at hb
                            | ok l =>
                                simp only [] at hb
                                obtain ⟨h1, h2⟩ := Prod.mk.injEq .. ▸ hb
                                cases h1
                                rw [← h2]
                                exact ⟨by simp [emitE], rfl, rfl⟩
                  · rw [if_pos (by simp [hdl])] at hb
                    -- removeDownloaded then download
                    cases hrd : removeDownloaded env info.name su with
                    | mk rr sr =>
                        have hrdf := removeDownloaded_fields env info.name su
                        rw [hrd] at hrdf
                        rw [hrd] at hb
                        cases rr with
                        | error e =>
                            exact absurd hrdf.1 (by simp)
                        | ok u2 =>
                            simp only [] at hb
                            have hdf := npmDownload_fields env info sr hpay
                            cases hdn : npmDownloadM env info sr with
                            | mk rn sn =>
                                rw [hdn] at hdf hb
                                obtain ⟨hdok, hdreg, dir, mn, dps, hdir, hpj⟩ :=
                                  hdf
                                have hdir2 : alFind sn.fsDirs
                                    (getPluginLocation env info.name) =
                                    some dir := hdir
                                cases rn with
                                | error e => exact absurd hdok (by simp)
                                | ok u3 =>
                                    simp only [] at hb
                                    by_cases hne : info.name = ""
                                    · exfalso
                                      rw [hne] at hdir2 hpj hb
                                      have hread0 : readPackageJsonFromPath sn
                                          (getPluginLocation env "") =
                                          .error (.invalidPackage
                                            (getPluginLocation env "")) := by
                                        simp [readPackageJsonFromPath, hdir2,
                                          hpj]
                                      have hcpi : createPluginInfo env "" sn =
                                          (.error (.invalidPackage
                                            (getPluginLocation env "")), sn) := by
                                        simp [createPluginInfo, hread0]
                                      rw [hcpi] at hb
                                      simp at hb
                                    · have hread := readPackageJson_of_manifest
                                        sn (getPluginLocation env info.name)
                                        info.name info.version mn dps dir hdir2
                                        hpj hne
                                      obtain ⟨mf, hcr⟩ := createPluginInfo_ok
                                        env info.name sn
                                        ⟨info.name, info.version, mn, dps⟩ hread
                                      rw [hcr] at hb
                                      simp only [] at hb
                                      cases m with
                                      | zero => simp [addPlugin] at hb
                                      | succ m2 =>
                                          simp only [addPlugin] at hb
                                          cases hdeps : installDependencies env
                                              m2 ⟨info.name, info.version,
                                                getPluginLocation env info.name,
                                                mf, dps.getD []⟩ sn with
                                          | mk rd s6 =>
                                              rw [hdeps] at hb
                                              cases rd with
                                              | error e => simp at hb
                                              | ok l =>
                                                  simp only [] at hb
                                                  obtain ⟨h1, h2⟩ :=
                                                    Prod.mk.injEq .. ▸ hb
                                                  cases h1
                                                  rw [← h2]
                                                  exact ⟨by simp [emitE], rfl,
                                                    rfl⟩

/-- Inverting a successful public `install`: the lock collaborator did not
fail, the name was valid, there was fuel to spare, and the returned
descriptor is registered in the final state under the resolved name and
version. -/
theorem install_ok_facts (env : Env) (fuel : Nat) (name : String) (r : VRange)
    (s : PMState) (d : PluginInfo) (sOne : PMState)
    (hpay : PayloadSane env)
    (h : install env fuel name (some (.range r)) s = (.ok d, sOne)) :
    env.lockAcquireFails = false ∧ env.lockReleaseFails = false
    ∧ isValidPluginName name = true
    ∧ ∃ m, fuel = m + 2
    ∧ ∃ info, env.npmResolve name (some r) = some info
        ∧ d ∈ sOne.installedPlugins ∧ d.name = info.name
        ∧ d.version = info.version := by
  by_cases hA : env.lockAcquireFails
  · exfalso
    simp [install, lockGuarded, ensureRootDir, syncLock, hA] at h
  have hA2 : env.lockAcquireFails = false := by simpa using hA
  rw [show install env fuel name (some (.range r)) s =
      tryFinallyM (installLockFree env fuel name (some (.range r)))
        (syncUnlock env)
        (emitE (emitE s (.ensureDir env.pluginsPath)) .lockAcquire) from by
    simp [install, lockGuarded, ensureRootDir, syncLock, hA2]] at h
  cases hb : installLockFree env fuel name (some (.range r))
      (emitE (emitE s (.ensureDir env.pluginsPath)) .lockAcquire) with
  | mk rb sb =>
      simp only [tryFinallyM, hb, syncUnlock] at h
      by_cases hR : env.lockReleaseFails
      · exfalso
        rw [if_pos hR] at h
        simp at h
      have hR2 : env.lockReleaseFails = false := by simpa using hR
      rw [if_neg hR] at h
      simp only [] at h
      obtain ⟨h1, h2⟩ := Prod.mk.injEq .. ▸ h
      cases fuel with
      | zero =>
          exfalso
          have hb0 : ((.error .outOfFuel : Except PMError PluginInfo),
              emitE (emitE s (.ensureDir env.pluginsPath)) .lockAcquire) =
              (rb, sb) := hb
          obtain ⟨hx, hy⟩ := Prod.mk.injEq .. ▸ hb0
          rw [← hx] at h1
          simp at h1
      | succ n =>
          by_cases hv : isValidPluginName name
          case neg =>
            exfalso
            simp only [installLockFree] at hb
            rw [if_pos (by simp [hv])] at hb
            obtain ⟨hx, hy⟩ := Prod.mk.injEq .. ▸ hb
            rw [← hx] at h1
            simp at h1
          case pos =>
          cases n with
          | zero =>
              exfalso
              simp only [installLockFree] at hb
              rw [if_neg (by simp [hv])] at hb
              have hb1 : ((.error .outOfFuel : Except PMError PluginInfo),
                  emitE (emitE s (.ensureDir env.pluginsPath)) .lockAcquire) =
                  (rb, sb) := hb
              obtain ⟨hx, hy⟩ := Prod.mk.injEq .. ▸ hb1
              rw [← hx] at h1
              simp at h1
          | succ m =>
              refine ⟨hA2, hR2, hv, m, rfl, ?_⟩
              have hb2 : installFromNpmLockFree env (m + 1) name (some r)
                  (emitE (emitE s (.ensureDir env.pluginsPath)) .lockAcquire) =
                  (.ok d, sb) := by
                rw [← h1]
                rw [← hb]
                simp only [installLockFree]
                rw [if_neg (by simp [hv])]
                rfl
              obtain ⟨_, info, hres, hmem, hnm, hver⟩ :=
                npmLockFree_ok_facts env m name r _ d sb hpay hb2
              refine ⟨info, hres, ?_, hnm, hver⟩
              rw [← h2]
              simpa [emitE] using hmem

theorem find_name_of_mem_nodup (l : List PluginInfo) (d : PluginInfo)
    (hd : d ∈ l) (hnd : (l.map PluginInfo.name).Nodup) :
    l.find? (fun p => p.name == d.name) = some d := by
  induction l with
  | nil => cases hd
  | cons a rest ih =>
      rcases List.mem_cons.mp hd with rfl | hrest
      · simp [List.find?]
      · have hanodup := List.nodup_cons.mp hnd
        have hne : (a.name == d.name) = false := by
          simp only [beq_eq_false_iff_ne]
          intro he
          exact hanodup.1 (he ▸ List.mem_map.mpr ⟨d, hrest, rfl⟩)
        simp only [List.find?, hne]
        exact ih hrest hanodup.2

/-- Running `install` against a state whose registry already holds the
resolved name at exactly the resolved version: the installed descriptor is
returned unchanged, the registry and store are untouched, and the trace
delta is exactly ensure/acquire/resolve/release — no download, no write,
no push. -/
theorem install_hit (env : Env) (m : Nat) (name : String) (r : VRange)
    (s : PMState) (info : PackageInfo) (d : PluginInfo)
    (hA : env.lockAcquireFails = false) (hR : env.lockReleaseFails = false)
    (hv : isValidPluginName name = true)
    (hres : env.npmResolve name (some r) = some info)
    (hfind : getFullInfo s info.name = some d)
    (hver : d.version = info.version) :
    install env (m + 2) name (some (.range r)) s =
      (.ok d, { s with trace := s.trace ++
        [.ensureDir env.pluginsPath, .lockAcquire, .resolveNpm name,
         .lockRelease] }) := by
  have hfind2 : getFullInfo { s with trace := s.trace ++
      [.ensureDir env.pluginsPath, .lockAcquire, .resolveNpm name] }
      info.name = some d := hfind
  have hai : alreadyInstalled { s with trace := s.trace ++
      [.ensureDir env.pluginsPath, .lockAcquire, .resolveNpm name] }
      info.name (some (.exact info.version)) = some d := by
    simp [alreadyInstalled, hfind2, satisfies_exact, hver]
  simp only [install, lockGuarded, ensureRootDir, syncLock, hA,
    Bool.false_eq_true, if_false, tryFinallyM, installLockFree]
  rw [if_neg (by simp [hv])]
  simp only [installFromNpmLockFree, npmGet, rangeOfSpec, hres]
  rw [if_neg (by simp [hv])]
  simp only [hai, syncUnlock, hR, Bool.false_eq_true, if_false, emitE,
    List.append_assoc, List.cons_append, List.nil_append]

/-- C6: installing the same name and range twice without an intervening
uninstall is idempotent — the second `install` returns the identical
descriptor, leaves the registry and the store exactly as they were, and
its whole effect trace is ensure-root/lock-acquire/npm-resolve/lock-release:
no materialization (no download, copy or write into the store) and no
Registry mutation occur. -/
theorem C6_idempotent_reinstall (env : Env) (fuel : Nat) (name : String)
    (r : VRange) (s sOne : PMState) (d : PluginInfo)
    (hpay : PayloadSane env)
    (h1 : install env fuel name (some (.range r)) s = (.ok d, sOne))
    (hnd : (sOne.installedPlugins.map PluginInfo.name).Nodup) :
    install env fuel name (some (.range r)) sOne =
      (.ok d, { sOne with trace := sOne.trace ++
        [.ensureDir env.pluginsPath, .lockAcquire, .resolveNpm name,
         .lockRelease] }) := by
  obtain ⟨hA, hR, hv, m, rfl, info, hres, hmem, hnm, hver⟩ :=
    install_ok_facts env fuel name r s d sOne hpay h1
  have hfind : getFullInfo sOne info.name = some d := by
    show sOne.installedPlugins.find? (fun p => p.name == info.name) = some d
    rw [← hnm]
    exact find_name_of_mem_nodup sOne.installedPlugins d hmem hnd
  exact install_hit env m name r sOne info d hA hR hv hres hfind hver

/-- The state after the first `install("foo", "^1.0.0")` of the witness. -/
def idemState1 : PMState := idemRun1.2

/-- Witness for C6: a concrete double install of `foo@^1.0.0`. -/
theorem C6_idempotent_reinstall_witness :
    install envIdem 9 "foo" (some (.range (.caret v1))) idemState1 =
      (.ok fooInfo, { idemState1 with trace := idemState1.trace ++
        [.ensureDir envIdem.pluginsPath, .lockAcquire, .resolveNpm "foo",
         .lockRelease] }) :=
  C6_idempotent_reinstall envIdem 9 "foo" (.caret v1) s0 idemState1 fooInfo
    (fun nm v => ⟨none, none, rfl⟩) (by decide) (by decide)

/-! ### C7 — ignored dependencies are never installed: machinery -/

/-- The npm resolution contract: the index answers a query for `nm` with a
package named `nm`. -/
def ResolvesOwnName (env : Env) : Prop :=
  ∀ nm r info, env.npmResolve nm r = some info → info.name = nm

/-- "No new registry entry named `k`": every descriptor installed in the
final state was already installed initially or has a different name. -/
def NoNewNamed (k : String) (s sf : PMState) : Prop :=
  ∀ p ∈ sf.installedPlugins, p ∈ s.installedPlugins ∨ p.name ≠ k

theorem noNewNamed_refl (k : String) (s : PMState) : NoNewNamed k s s :=
  fun _ hp => .inl hp

theorem noNewNamed_trans {k : String} {s t u : PMState}
    (h1 : NoNewNamed k s t) (h2 : NoNewNamed k t u) : NoNewNamed k s u := by
  intro p hp
  rcases h2 p hp with h | h
  · exact h1 p h
  · exact .inr h

theorem noNewNamed_of_sub {k : String} {s t : PMState}
    (h : ∀ p ∈ t.installedPlugins, p ∈ s.installedPlugins) :
    NoNewNamed k s t := fun p hp => .inl (h p hp)

theorem createPluginInfo_state (env : Env) (nm : String) (s : PMState) :
    (createPluginInfo env nm s).2 = s := by
  unfold createPluginInfo
  cases h : readPackageJsonFromPath s (getPluginLocation env nm) <;> simp [h]

theorem uninstall_registry_sub (env : Env) (fuel : Nat) (nm : String)
    (s : PMState) (p : PluginInfo)
    (hp : p ∈ (uninstallLockFree env fuel nm s).2.installedPlugins) :
    p ∈ s.installedPlugins := by
  by_cases hv : isValidPluginName nm
  case neg =>
    simp only [uninstallLockFree] at hp
    rw [if_pos (by simp [hv])] at hp
    exact hp
  case pos =>
  simp only [uninstallLockFree] at hp
  rw [if_neg (by simp [hv])] at hp
  cases hf : getFullInfo s nm with
  | none => rw [hf] at hp; exact hp
  | some tgt =>
      rw [hf] at hp
      simp only [deleteAndUnloadPlugin] at hp
      cases hc : unloadWithDependents env fuel tgt
          { s with installedPlugins := s.installedPlugins.erase tgt } with
      | mk rc s2 =>
          rw [hc] at hp
          have hreg : s2.installedPlugins = s.installedPlugins.erase tgt := by
            have h0 := (cascadeStateInv fuel env).1 tgt
              { s with installedPlugins := s.installedPlugins.erase tgt }
            rw [hc] at h0
            exact h0.1
          cases rc with
          | error e =>
              rw [hreg] at hp
              exact List.mem_of_mem_erase hp
          | ok u =>
              simp only [fsRemoveM, emitE] at hp
              rw [hreg] at hp
              exact List.mem_of_mem_erase hp

/-- The dependency dictionary built by a successful dependency-loop run is
exactly the input map restricted to the non-ignored names. -/
theorem depsList_ok_filter (env : Env) : ∀ (fuel : Nat)
    (deps : List (String × VRange)) (s : PMState)
    (out : List (String × VRange)) (sf : PMState),
    installDepsList env fuel deps s = (.ok out, sf) →
    out = deps.filter (fun e => !shouldIgnore env e.1) := by
  intro fuel
  induction fuel with
  | zero =>
      intro deps s out sf h
      simp only [installDepsList] at h
      exact absurd (Prod.mk.injEq .. ▸ h).1 (by simp)
  | succ n IH =>
      intro deps s out sf h
      cases deps with
      | nil =>
          simp only [installDepsList] at h
          obtain ⟨h1, h2⟩ := Prod.mk.injEq .. ▸ h
          simp only [List.filter_nil]
          exact (by simpa using h1.symm)
      | cons kv rest =>
          obtain ⟨key, ver⟩ := kv
          by_cases hig : shouldIgnore env key
          · simp only [installDepsList] at h
            rw [if_pos hig] at h
            have hfc : ((key, ver) :: rest).filter
                (fun e => !shouldIgnore env e.1) =
                rest.filter (fun e => !shouldIgnore env e.1) := by
              simp [List.filter_cons, hig]
            rw [hfc]
            exact IH rest s out sf h
          · simp only [installDepsList] at h
            rw [if_neg hig] at h
            have hfc : ((key, ver) :: rest).filter
                (fun e => !shouldIgnore env e.1) =
                (key, ver) :: rest.filter (fun e => !shouldIgnore env e.1) := by
              simp [List.filter_cons, hig]
            rw [hfc]
            have tail : ∀ s2 : PMState,
                (match installDepsList env n rest s2 with
                  | (.error e, s3) => ((.error e : Except PMError
                      (List (String × VRange))), s3)
                  | (.ok deps2, s3) => (.ok ((key, ver) :: deps2), s3)) =
                  (.ok out, sf) →
                out = (key, ver) :: rest.filter (fun e => !shouldIgnore env e.1) := by
              intro s2 hm
              cases hrest : installDepsList env n rest s2 with
              | mk rr s3 =>
                  rw [hrest] at hm
                  cases rr with
                  | error e => exact absurd (Prod.mk.injEq .. ▸ hm).1 (by simp)
                  | ok deps2 =>
                      obtain ⟨hm1, hm2⟩ := Prod.mk.injEq .. ▸ hm
                      have := IH rest s2 deps2 s3 hrest
                      rw [← (by simpa using hm1 : (key, ver) :: deps2 = out)]
                      rw [this]
          -- the pre-step (host / installed / recursive install)
            by_cases hh : isModuleAvailableFromHost env key ver
            · rw [if_pos (by simp [hh])] at h
              exact tail s h
            · rw [if_neg (by simp [hh])] at h
              by_cases hai : (alreadyInstalled s key (some ver)).isSome
              · rw [if_pos (by simpa using hai)] at h
                exact tail s h
              · rw [if_neg (by simpa using hai)] at h
                cases hil : installLockFree env n key (some (.range ver)) s with
                | mk ri si =>
                    rw [hil] at h
                    cases ri with
                    | error e =>
                        simp only [] at h
                        exact absurd (Prod.mk.injEq .. ▸ h).1 (by simp)
                    | ok q =>
                        simp only [] at h
                        exact tail si h

theorem npmTail_noNew (env : Env) (k : String) (n : Nat) (info : PackageInfo)
    (hpay : PayloadSane env) (hik : info.name ≠ k)
    (ihA : ∀ d s, d.name ≠ k → NoNewNamed k s (addPlugin env n d s).2)
    (s2 : PMState) :
    NoNewNamed k s2
      ((match
          (if !isAlreadyDownloadedPure env s2 info.name info.version then
            match removeDownloaded env info.name s2 with
            | (.error e, s3) => ((.error e : Except PMError Unit), s3)
            | (.ok _, s3) => npmDownloadM env info s3
           else ((.ok () : Except PMError Unit), s2)) with
        | (.error e, s4) => ((.error e : Except PMError PluginInfo), s4)
        | (.ok _, s4) =>
            match createPluginInfo env info.name s4 with
            | (.error e, s5) => (.error e, s5)
            | (.ok pluginInfo, s5) => addPlugin env n pluginInfo s5).2) := by
  by_cases hdl : isAlreadyDownloadedPure env s2 info.name info.version
  · rw [if_neg (by simp [hdl])]
    simp only []
    obtain ⟨mn, dps, hread⟩ :=
      alreadyDownloaded_read env s2 info.name info.version hdl
    obtain ⟨mf, hcr⟩ := createPluginInfo_ok env info.name s2
      ⟨info.name, info.version, mn, dps⟩ hread
    rw [hcr]
    simp only []
    exact ihA _ s2 (by simpa using hik)
  · rw [if_pos (by simp [hdl])]
    cases hrd : removeDownloaded env info.name s2 with
    | mk rr sr =>
        have hfr := removeDownloaded_fields env info.name s2
        rw [hrd] at hfr
        cases rr with
        | error e => exact absurd hfr.1 (by simp)
        | ok u =>
            simp only []
            cases hdn : npmDownloadM env info sr with
            | mk rn sn =>
                have hdf := npmDownload_fields env info sr hpay
                rw [hdn] at hdf
                obtain ⟨hdok, hdreg, dir, mn, dps, hdir, hpj⟩ := hdf
                have hdir2 : alFind sn.fsDirs
                    (getPluginLocation env info.name) = some dir := hdir
                have hregeq : sn.installedPlugins = s2.installedPlugins := by
                  have h1 : sn.installedPlugins = sr.installedPlugins := hdreg
                  rw [h1, hfr.2]
                cases rn with
                | error e => exact absurd hdok (by simp)
                | ok u2 =>
                    simp only []
                    by_cases hne : info.name = ""
                    · rw [hne] at hdir2 hpj
                      have hread0 : readPackageJsonFromPath sn
                          (getPluginLocation env "") =
                          .error (.invalidPackage (getPluginLocation env "")) := by
                        simp [readPackageJsonFromPath, hdir2, hpj]
                      have hcpi : createPluginInfo env info.name sn =
                          (.error (.invalidPackage (getPluginLocation env "")),
                           sn) := by
                        rw [hne]
                        simp [createPluginInfo, hread0]
                      rw [hcpi]
                      simp only []
                      exact noNewNamed_of_sub (fun q hq => by
                        rw [hregeq] at hq; exact hq)
                    · have hread := readPackageJson_of_manifest sn
                        (getPluginLocation env info.name) info.name info.version
                        mn dps dir hdir2 hpj hne
                      obtain ⟨mf, hcr⟩ := createPluginInfo_ok env info.name sn
                        ⟨info.name, info.version, mn, dps⟩ hread
                      rw [hcr]
                      simp only []
                      exact noNewNamed_trans
                        (noNewNamed_of_sub (fun q hq => by
                          rw [hregeq] at hq; exact hq))
                        (ihA _ sn (by simpa using hik))

theorem npm_noNew_aux (env : Env) (k : String) (n : Nat) (info : PackageInfo)
    (hpay : PayloadSane env) (hik : info.name ≠ k)
    (ihA : ∀ d s, d.name ≠ k → NoNewNamed k s (addPlugin env n d s).2)
    (s1 : PMState) :
    NoNewNamed k s1
      ((match
          (if (alreadyInstalled s1 info.name none).isSome then
            uninstallLockFree env n info.name s1
          else ((.ok () : Except PMError Unit), s1)) with
        | (.error e, s2) => ((.error e : Except PMError PluginInfo), s2)
        | (.ok _, s2) =>
            match
              (if !isAlreadyDownloadedPure env s2 info.name info.version then
                match removeDownloaded env info.name s2 with
                | (.error e, s3) => ((.error e : Except PMError Unit), s3)
                | (.ok _, s3) => npmDownloadM env info s3
               else ((.ok () : Except PMError Unit), s2)) with
            | (.error e, s4) => ((.error e : Except PMError PluginInfo), s4)
            | (.ok _, s4) =>
                match createPluginInfo env info.name s4 with
                | (.error e, s5) => (.error e, s5)
                | (.ok pluginInfo, s5) => addPlugin env n pluginInfo s5).2) := by
  by_cases hun0 : (alreadyInstalled s1 info.name none).isSome
  · rw [if_pos (by simpa using hun0)]
    cases hun : uninstallLockFree env n info.name s1 with
    | mk ru su =>
        have hsub : ∀ q ∈ su.installedPlugins, q ∈ s1.installedPlugins := by
          intro q hq
          exact uninstall_registry_sub env n info.name s1 q (by rw [hun]; exact hq)
        cases ru with
        | error e => exact noNewNamed_of_sub hsub
        | ok u =>
            simp only []
            exact noNewNamed_trans (noNewNamed_of_sub hsub)
              (npmTail_noNew env k n info hpay hik ihA su)
  · rw [if_neg (by simpa using hun0)]
    simp only []
    exact npmTail_noNew env k n info hpay hik ihA s1

/-- The joint fuel induction for the dependency resolver: when `k` matches a
configured ignore pattern, no run of the resolver (or of the installs it
spawns for other names) ever adds a registry entry named `k`. -/
theorem ignoredNeverInstalled (env : Env) (k : String)
    (hk : shouldIgnore env k = true)
    (hres : ResolvesOwnName env) (hpay : PayloadSane env) : ∀ n : Nat,
    (∀ nm v s, nm ≠ k →
      NoNewNamed k s (installFromNpmLockFree env n nm (some v) s).2)
    ∧ (∀ nm v s, nm ≠ k →
      NoNewNamed k s (installLockFree env n nm (some (.range v)) s).2)
    ∧ (∀ d s, d.name ≠ k → NoNewNamed k s (addPlugin env n d s).2)
    ∧ (∀ d s, NoNewNamed k s (installDependencies env n d s).2)
    ∧ (∀ deps s, NoNewNamed k s (installDepsList env n deps s).2) := by
  intro n
  induction n with
  | zero =>
      exact ⟨fun nm v s _ => noNewNamed_refl k s,
             fun nm v s _ => noNewNamed_refl k s,
             fun d s _ => noNewNamed_refl k s,
             fun d s => noNewNamed_refl k s,
             fun deps s => noNewNamed_refl k s⟩
  | succ n IH =>
      obtain ⟨ihN, ihL, ihA, ihD, ihS⟩ := IH
      refine ⟨?_, ?_, ?_, ?_, ?_⟩
      · -- installFromNpmLockFree
        intro nm v s hnm
        by_cases hv : isValidPluginName nm
        case neg =>
          simp only [installFromNpmLockFree]
          rw [if_pos (by simp [hv])]
          exact noNewNamed_refl k s
        case pos =>
        simp only [installFromNpmLockFree, npmGet]
        rw [if_neg (by simp [hv])]
        cases hre : env.npmResolve nm (some v) with
        | none =>
            simp only []
            exact fun p hp => .inl hp
        | some info =>
            simp only []
            have hik : info.name ≠ k := by
              rw [hres nm (some v) info hre]
              exact hnm
            cases hai : alreadyInstalled (emitE s (.resolveNpm nm)) info.name
                (some (.exact info.version)) with
            | some i => exact fun p hp => .inl hp
            | none =>
                exact npm_noNew_aux env k n info hpay hik ihA
                  (emitE s (.resolveNpm nm))
      · -- installLockFree
        intro nm v s hnm
        by_cases hv : isValidPluginName nm
        case neg =>
          simp only [installLockFree]
          rw [if_pos (by simp [hv])]
          exact noNewNamed_refl k s
        case pos =>
        simp only [installLockFree]
        rw [if_neg (by simp [hv])]
        exact ihN nm v s hnm
      · -- addPlugin
        intro d s hd
        simp only [addPlugin]
        cases hdeps : installDependencies env n d s with
        | mk rd s1 =>
            have h1 : NoNewNamed k s s1 := by
              have := ihD d s
              rw [hdeps] at this
              exact this
            cases rd with
            | error e => exact h1
            | ok l =>
                simp only []
                intro p hp
                simp only [emitE, List.mem_append, List.mem_singleton] at hp
                rcases hp with hp | rfl
                · exact h1 p hp
                · exact .inr hd
      · -- installDependencies
        intro d s
        exact ihS d.dependencies s
      · -- installDepsList
        intro deps s
        cases deps with
        | nil => exact noNewNamed_refl k s
        | cons kv rest =>
            obtain ⟨key, ver⟩ := kv
            by_cases hig : shouldIgnore env key
            · simp only [installDepsList]
              rw [if_pos hig]
              exact ihS rest s
            · have hkey : key ≠ k := by
                intro he
                rw [he] at hig
                exact hig hk
              have tail : ∀ s2 : PMState, NoNewNamed k s s2 →
                  NoNewNamed k s
                    ((match installDepsList env n rest s2 with
                      | (.error e, s3) => ((.error e : Except PMError
                          (List (String × VRange))), s3)
                      | (.ok deps2, s3) =>
                          (.ok ((key, ver) :: deps2), s3)).2) := by
                intro s2 h2
                cases hrest : installDepsList env n rest s2 with
                | mk rr s3 =>
                    have h3 : NoNewNamed k s2 s3 := by
                      have := ihS rest s2
                      rw [hrest] at this
                      exact this
                    cases rr with
                    | error e => exact noNewNamed_trans h2 h3
                    | ok deps2 => exact noNewNamed_trans h2 h3
              simp only [installDepsList]
              rw [if_neg hig]
              by_cases hh : isModuleAvailableFromHost env key ver
              · rw [if_pos (by simp [hh])]
                simp only []
                exact tail s (noNewNamed_refl k s)
              · rw [if_neg (by simp [hh])]
                by_cases hai : (alreadyInstalled s key (some ver)).isSome
                · rw [if_pos (by simpa using hai)]
                  simp only []
                  exact tail s (noNewNamed_refl k s)
                · rw [if_neg (by simpa using hai)]
                  cases hil : installLockFree env n key (some (.range ver)) s with
                  | mk ri si =>
                      have hsi : NoNewNamed k s si := by
                        have := ihL key ver s hkey
                        rw [hil] at this
                        exact this
                      cases ri with
                      | error e => exact hsi
                      | ok q =>
                          simp only []
                          exact tail si hsi

/-- C7 (amended): a dependency entry is skipped exactly when `shouldIgnore`
matches it (regular-expression patterns by their test, literal string
patterns converted to an unanchored regular expression — substring
semantics for plain literals — or a statically-substituted key): the
dependency dictionary a successful resolver run returns is exactly the
input map restricted to the non-skipped names, and a name `k` matching a
configured pattern is never installed by dependency resolution — no run
of `installDependencies` ever adds a registry entry named `k`. -/
theorem C7_amended (env : Env) (k : String)
    (hk : shouldIgnore env k = true)
    (hres : ResolvesOwnName env) (hpay : PayloadSane env) :
    (∀ fuel deps s out sf, installDepsList env fuel deps s = (.ok out, sf) →
      out = deps.filter (fun e => !shouldIgnore env e.1))
    ∧ ∀ fuel d s p, p ∈ (installDependencies env fuel d s).2.installedPlugins →
      p ∈ s.installedPlugins ∨ p.name ≠ k :=
  ⟨fun fuel => depsList_ok_filter env fuel,
   fun fuel d s =>
     (ignoredNeverInstalled env k hk hres hpay fuel).2.2.2.1 d s⟩

/-- Witness for C7 (amended): with the literal pattern `"lodash"`, the
resolver run over the single dependency `lodash-es` returns the filtered
(empty) dictionary. -/
theorem C7_witness :
    (installDepsList envIgnore 4 [("lodash-es", VRange.any)] s0).1 =
      .ok ([("lodash-es", VRange.any)].filter
        (fun e => !shouldIgnore envIgnore e.1)) := by
  have hrun : installDepsList envIgnore 4 [("lodash-es", VRange.any)] s0 =
      (.ok [], s0) := by decide
  have hro : ResolvesOwnName envIgnore := by
    intro nm r info h
    simp [envIgnore, env0] at h
  have hfil := (C7_amended envIgnore "lodash-es" (by decide) hro
    (fun nm v => ⟨none, none, rfl⟩)).1 4 [("lodash-es", VRange.any)] s0 [] s0
    hrun
  rw [hrun, ← hfil]

end LPM
